import Mathlib

/-!
Verification of the Snapshot Generation Engine of `airtable-sqlite`
(`src/server.js`) against its natural-language specification.

The JavaScript source is shallowly embedded: each helper function of
`server.js` is translated into an executable Lean definition operating on
explicit data (strings, lists, records), and the claims of the spec are
proved or refuted as theorems about those definitions.
-/

namespace AirtableSqlite

/-! ## Name Resolver — `sanitizeColumnName` (src/server.js lines 20-32)

The JS function is
`name.replace(/[^a-zA-Z0-9_]/g, '_').replace(/_{2,}/g, '_')`, then, when the
result has length above one, `replace(/^_+|_+$/g, '')`, and finally the
placeholder `'_invalid_name_'` when the result is empty. -/

/-- A character matched by the JS character class `[a-zA-Z0-9_]`. -/
def isWordChar (c : Char) : Bool :=
  ('a' ≤ c && c ≤ 'z') || ('A' ≤ c && c ≤ 'Z') || ('0' ≤ c && c ≤ '9') || c = '_'

/-- Embedding of `.replace(/[^a-zA-Z0-9_]/g, '_')`. -/
def replaceInvalid (l : List Char) : List Char :=
  l.map (fun c => if isWordChar c then c else '_')

/-- Embedding of `.replace(/_{2,}/g, '_')`: every maximal run of two or more
underscores is collapsed to a single underscore. -/
def collapseU : List Char → List Char
  | [] => []
  | [c] => [c]
  | c :: d :: rest =>
    if c = '_' && d = '_' then collapseU (d :: rest) else c :: collapseU (d :: rest)

/-- The leading half of `.replace(/^_+|_+$/g, '')`. -/
def dropLeadingUnderscores (l : List Char) : List Char :=
  l.dropWhile (fun c => c = '_')

/-- The trailing half of `.replace(/^_+|_+$/g, '')`: remove the maximal
trailing run of underscores. -/
def dropTrailingUnderscores : List Char → List Char
  | [] => []
  | c :: r =>
    let r' := dropTrailingUnderscores r
    if r'.isEmpty then (if c = '_' then [] else [c]) else c :: r'

/-- Embedding of `sanitizeColumnName` (src/server.js lines 20-32). -/
def sanitizeColumnName (name : String) : String :=
  let s1 := collapseU (replaceInvalid name.data)
  let s2 := if s1.length > 1 then dropTrailingUnderscores (dropLeadingUnderscores s1) else s1
  if s2.isEmpty then "_invalid_name_" else String.mk s2

/-- The regular expression `^[A-Za-z0-9_]+$` of the spec, as a predicate. -/
def matchesWordRegex (s : String) : Bool :=
  !s.data.isEmpty && s.data.all isWordChar

/-- No two consecutive underscores occur in the list. -/
def noConsecUnd : List Char → Bool
  | a :: b :: r => (!(a = '_' && b = '_')) && noConsecUnd (b :: r)
  | _ => true

theorem bnot_true {b : Bool} (h : (!b) = true) : b = false := by
  cases b
  · rfl
  · exact absurd h (by simp)

theorem noConsecUnd_tail {a : Char} {r : List Char} (h : noConsecUnd (a :: r) = true) :
    noConsecUnd r = true := by
  cases r with
  | nil => rfl
  | cons b s =>
    have : ((!(a = '_' && b = '_')) && noConsecUnd (b :: s)) = true := h
    exact (Bool.and_eq_true _ _ |>.mp this).2

theorem noConsecUnd_cons {a b : Char} {r : List Char}
    (hab : (a = '_' && b = '_') = false) (h : noConsecUnd (b :: r) = true) :
    noConsecUnd (a :: b :: r) = true := by
  show ((!(a = '_' && b = '_')) && noConsecUnd (b :: r)) = true
  rw [hab, h]; rfl

theorem collapseU_all {p : Char → Bool} : ∀ {l : List Char}, l.all p = true →
    (collapseU l).all p = true
  | [], h => h
  | [c], h => h
  | c :: d :: rest, h => by
    simp only [List.all_cons, Bool.and_eq_true] at h
    by_cases hc : (c = '_' && d = '_') = true
    · show (if (c = '_' && d = '_') = true then collapseU (d :: rest)
        else c :: collapseU (d :: rest)).all p = true
      rw [if_pos hc]
      exact collapseU_all (by simp [List.all_cons, h.2.1, h.2.2])
    · show (if (c = '_' && d = '_') = true then collapseU (d :: rest)
        else c :: collapseU (d :: rest)).all p = true
      rw [if_neg hc]
      simp only [List.all_cons, Bool.and_eq_true]
      exact ⟨h.1, collapseU_all (by simp [List.all_cons, h.2.1, h.2.2])⟩

theorem collapseU_cons_ex (x : Char) (xs : List Char) :
    ∃ ys, collapseU (x :: xs) = x :: ys := by
  induction xs generalizing x with
  | nil => exact ⟨[], rfl⟩
  | cons d rest ih =>
    by_cases hc : (x = '_' && d = '_') = true
    · obtain ⟨hx', hd'⟩ : x = '_' ∧ d = '_' := by simpa using hc
      obtain ⟨ys, hys⟩ := ih d
      refine ⟨ys, ?_⟩
      show (if (x = '_' && d = '_') = true then collapseU (d :: rest)
        else x :: collapseU (d :: rest)) = x :: ys
      rw [if_pos hc, hys, hx', hd']
    · refine ⟨collapseU (d :: rest), ?_⟩
      show (if (x = '_' && d = '_') = true then collapseU (d :: rest)
        else x :: collapseU (d :: rest)) = x :: collapseU (d :: rest)
      rw [if_neg hc]

theorem collapseU_noConsec : ∀ (l : List Char), noConsecUnd (collapseU l) = true
  | [] => rfl
  | [_] => rfl
  | c :: d :: rest => by
    by_cases hc : (c = '_' && d = '_') = true
    · show noConsecUnd (if (c = '_' && d = '_') = true then collapseU (d :: rest)
        else c :: collapseU (d :: rest)) = true
      rw [if_pos hc]
      exact collapseU_noConsec (d :: rest)
    · show noConsecUnd (if (c = '_' && d = '_') = true then collapseU (d :: rest)
        else c :: collapseU (d :: rest)) = true
      rw [if_neg hc]
      obtain ⟨ys, hys⟩ := collapseU_cons_ex d rest
      have htail := collapseU_noConsec (d :: rest)
      rw [hys] at htail ⊢
      exact noConsecUnd_cons (Bool.not_eq_true _ ▸ hc) htail

theorem collapseU_id_of_noConsec : ∀ (l : List Char), noConsecUnd l = true →
    collapseU l = l
  | [], _ => rfl
  | [_], _ => rfl
  | c :: d :: rest, h => by
    have h1 : ((!(c = '_' && d = '_')) && noConsecUnd (d :: rest)) = true := h
    rw [Bool.and_eq_true] at h1
    have hc : (c = '_' && d = '_') = false := by
      cases hcd : (c = '_' && d = '_') with
      | false => rfl
      | true => rw [hcd] at h1; exact absurd h1.1 (by simp)
    show (if (c = '_' && d = '_') = true then collapseU (d :: rest)
      else c :: collapseU (d :: rest)) = c :: d :: rest
    rw [if_neg (by simp [hc]), collapseU_id_of_noConsec (d :: rest) h1.2]

theorem dropWhile_noConsec {p : Char → Bool} : ∀ {l : List Char},
    noConsecUnd l = true → noConsecUnd (l.dropWhile p) = true
  | [], h => h
  | c :: r, h => by
    by_cases hp : p c = true
    · rw [List.dropWhile_cons, if_pos hp]
      exact dropWhile_noConsec (noConsecUnd_tail h)
    · rwa [List.dropWhile_cons, if_neg hp]

theorem dropTrailing_shape (m : List Char) (d : Char) (ys : List Char)
    (hm : dropTrailingUnderscores m = d :: ys) : ∃ zs, m = d :: zs := by
  cases m with
  | nil => exact absurd hm (by simp [dropTrailingUnderscores])
  | cons a as =>
    simp only [dropTrailingUnderscores] at hm
    by_cases hae : (dropTrailingUnderscores as).isEmpty = true
    · rw [if_pos hae] at hm
      by_cases ha : a = '_'
      · rw [if_pos ha] at hm; exact absurd hm (by simp)
      · rw [if_neg ha] at hm
        exact ⟨as, by rw [(List.cons.injEq a [] d ys |>.mp (by simpa using hm)).1]⟩
    · rw [if_neg hae] at hm
      exact ⟨as, by rw [(List.cons.injEq a _ d ys |>.mp hm).1]⟩

theorem dropTrailing_noConsec : ∀ {l : List Char},
    noConsecUnd l = true → noConsecUnd (dropTrailingUnderscores l) = true := by
  intro l
  induction l with
  | nil => intro h; exact h
  | cons c r ih =>
    intro h
    simp only [dropTrailingUnderscores]
    by_cases he : (dropTrailingUnderscores r).isEmpty = true
    · rw [if_pos he]
      by_cases hc : c = '_'
      · rw [if_pos hc]; rfl
      · rw [if_neg hc]; rfl
    · rw [if_neg he]
      have htail := ih (noConsecUnd_tail h)
      cases hr : dropTrailingUnderscores r with
      | nil => rw [hr] at he; exact (he rfl).elim
      | cons d ys =>
        rw [hr] at htail
        obtain ⟨zs, hzs⟩ := dropTrailing_shape r d ys hr
        rw [hzs] at h
        have h1 : ((!(c = '_' && d = '_')) && noConsecUnd (d :: zs)) = true := h
        rw [Bool.and_eq_true] at h1
        exact noConsecUnd_cons (bnot_true h1.1) htail

theorem dropWhile_all {p q : Char → Bool} {l : List Char} (h : l.all q = true) :
    (l.dropWhile p).all q = true := by
  rw [List.all_eq_true] at h ⊢
  intro x hx
  exact h x ((List.dropWhile_sublist p).subset hx)

theorem dropTrailing_all {q : Char → Bool} : ∀ {l : List Char},
    l.all q = true → (dropTrailingUnderscores l).all q = true := by
  intro l
  induction l with
  | nil => intro h; exact h
  | cons c r ih =>
    intro h
    simp only [List.all_cons, Bool.and_eq_true] at h
    simp only [dropTrailingUnderscores]
    by_cases he : (dropTrailingUnderscores r).isEmpty = true
    · rw [if_pos he]
      by_cases hc : c = '_'
      · rw [if_pos hc]; rfl
      · rw [if_neg hc]; simp [h.1]
    · rw [if_neg he]
      simp only [List.all_cons, Bool.and_eq_true]
      exact ⟨h.1, ih h.2⟩

theorem dropWhile_head_not {p : Char → Bool} : ∀ {l : List Char} {c : Char},
    (l.dropWhile p).head? = some c → p c = false := by
  intro l
  induction l with
  | nil => intro c h; exact absurd h (by simp)
  | cons a r ih =>
    intro c h
    by_cases hp : p a = true
    · rw [List.dropWhile_cons, if_pos hp] at h
      exact ih h
    · rw [List.dropWhile_cons, if_neg hp] at h
      have : a = c := by simpa using h
      rw [← this]
      exact Bool.not_eq_true _ ▸ hp

theorem dropTrailing_head : ∀ (l : List Char),
    dropTrailingUnderscores l = [] ∨ (dropTrailingUnderscores l).head? = l.head? := by
  intro l
  cases l with
  | nil => exact Or.inl rfl
  | cons c r =>
    simp only [dropTrailingUnderscores]
    by_cases he : (dropTrailingUnderscores r).isEmpty = true
    · rw [if_pos he]
      by_cases hc : c = '_'
      · rw [if_pos hc]; exact Or.inl rfl
      · rw [if_neg hc]; exact Or.inr rfl
    · rw [if_neg he]; exact Or.inr rfl

theorem dropTrailing_last : ∀ (l : List Char),
    (dropTrailingUnderscores l) = [] ∨
    ∃ c, (dropTrailingUnderscores l).getLast? = some c ∧ c ≠ '_' := by
  intro l
  induction l with
  | nil => exact Or.inl rfl
  | cons c r ih =>
    simp only [dropTrailingUnderscores]
    by_cases he : (dropTrailingUnderscores r).isEmpty = true
    · rw [if_pos he]
      by_cases hc : c = '_'
      · rw [if_pos hc]; exact Or.inl rfl
      · rw [if_neg hc]; exact Or.inr ⟨c, by simp, hc⟩
    · rw [if_neg he]
      cases hr : dropTrailingUnderscores r with
      | nil => rw [hr] at he; exact (he rfl).elim
      | cons d ys =>
        rw [hr] at ih
        rcases ih with h1 | ⟨e, he2, hne⟩
        · exact absurd h1 (by simp)
        · refine Or.inr ⟨e, ?_, hne⟩
          rw [List.getLast?_cons_cons]
          exact he2

theorem dropTrailing_id_of_last : ∀ {l : List Char},
    (∀ c, l.getLast? = some c → c ≠ '_') → dropTrailingUnderscores l = l := by
  intro l
  induction l with
  | nil => intro _; rfl
  | cons c r ih =>
    intro h
    simp only [dropTrailingUnderscores]
    cases r with
    | nil =>
      have hcn : c ≠ '_' := h c (by simp)
      simp [dropTrailingUnderscores, hcn]
    | cons d s =>
      have hr : dropTrailingUnderscores (d :: s) = d :: s := by
        apply ih
        intro e hee
        exact h e (by rw [List.getLast?_cons_cons]; exact hee)
      rw [hr]
      simp

/-! ## Decimal rendering of suffix numbers and JS `toLowerCase`

The JS template literal `` `${base}_${suffix}` `` renders the suffix in
decimal; `natToStr` is that rendering. `lowerStr` embeds
`String.prototype.toLowerCase` (ASCII range; all strings it is applied to in
the source are sanitized identifiers, hence ASCII). -/

/-- The decimal digit character for `d`. -/
def digitChar (d : Nat) : Char := Char.ofNat (48 + d)

/-- Decimal digits of `n`, most significant first, driven by fuel. -/
def natToStrAux : Nat → Nat → List Char
  | _, 0 => []
  | 0, _ => []
  | fuel + 1, n + 1 =>
    natToStrAux fuel ((n + 1) / 10) ++ [digitChar ((n + 1) % 10)]

/-- Decimal rendering of a natural number, as JS number-to-string. -/
def natToStr (n : Nat) : String :=
  if n = 0 then "0" else String.mk (natToStrAux n n)

/-- Decimal value of a digit list, most significant first. -/
def digitsVal (l : List Char) : Nat :=
  l.foldl (fun acc c => 10 * acc + (c.toNat - 48)) 0

theorem digitsVal_append_digit (l : List Char) (c : Char) :
    digitsVal (l ++ [c]) = 10 * digitsVal l + (c.toNat - 48) := by
  simp [digitsVal, List.foldl_append]

theorem digitChar_toNat {d : Nat} (hd : d < 10) : (digitChar d).toNat = 48 + d := by
  interval_cases d <;> rfl

theorem natToStrAux_zero (fuel : Nat) : natToStrAux fuel 0 = [] := by
  cases fuel <;> rfl

theorem digitsVal_natToStrAux : ∀ (fuel n : Nat), n ≤ fuel →
    digitsVal (natToStrAux fuel n) = n := by
  intro fuel
  induction fuel with
  | zero =>
    intro n hn
    have : n = 0 := Nat.le_zero.mp hn
    rw [this, natToStrAux_zero]
    rfl
  | succ f ih =>
    intro n hn
    cases n with
    | zero => rw [natToStrAux_zero]; rfl
    | succ k =>
      have hdiv : (k + 1) / 10 ≤ f := by
        have := Nat.div_lt_self (Nat.succ_pos k) (by norm_num : 1 < 10)
        omega
      show digitsVal (natToStrAux f ((k + 1) / 10) ++ [digitChar ((k + 1) % 10)]) = k + 1
      rw [digitsVal_append_digit, ih _ hdiv,
        digitChar_toNat (Nat.mod_lt _ (by norm_num))]
      omega

theorem natToStrAux_digits : ∀ (fuel n : Nat) (c : Char), c ∈ natToStrAux fuel n →
    48 ≤ c.toNat ∧ c.toNat < 58 := by
  intro fuel
  induction fuel with
  | zero =>
    intro n c hc
    have hz : natToStrAux 0 n = [] := by cases n <;> rfl
    rw [hz] at hc
    exact absurd hc (by simp)
  | succ f ih =>
    intro n c hc
    cases n with
    | zero => rw [natToStrAux_zero] at hc; exact absurd hc (by simp)
    | succ k =>
      have hc' : c ∈ natToStrAux f ((k + 1) / 10) ++ [digitChar ((k + 1) % 10)] := hc
      rw [List.mem_append] at hc'
      rcases hc' with h | h
      · exact ih _ c h
      · have : c = digitChar ((k + 1) % 10) := by simpa using h
        rw [this, digitChar_toNat (Nat.mod_lt _ (by norm_num))]
        have := Nat.mod_lt (k + 1) (y := 10) (by norm_num)
        omega

theorem natToStr_digits {n : Nat} {c : Char} (hc : c ∈ (natToStr n).data) :
    48 ≤ c.toNat ∧ c.toNat < 58 := by
  by_cases h0 : n = 0
  · rw [natToStr, if_pos h0] at hc
    have : c = '0' := by simpa using hc
    rw [this]
    exact ⟨by decide, by decide⟩
  · rw [natToStr, if_neg h0] at hc
    exact natToStrAux_digits n n c hc

theorem digitsVal_natToStr (k : Nat) : digitsVal (natToStr k).data = k := by
  by_cases hk : k = 0
  · rw [hk]; rfl
  · rw [natToStr, if_neg hk]
    show digitsVal (natToStrAux k k) = k
    exact digitsVal_natToStrAux k k (le_refl k)

theorem natToStr_inj {n m : Nat} (h : natToStr n = natToStr m) : n = m := by
  have := digitsVal_natToStr n
  rw [h, digitsVal_natToStr m] at this
  exact this.symm

/-- Embedding of the per-character action of JS `toLowerCase` on the ASCII
range. -/
def lowerChar (c : Char) : Char :=
  if 'A' ≤ c && c ≤ 'Z' then Char.ofNat (c.toNat + 32) else c

/-- Embedding of `String.prototype.toLowerCase` (ASCII). -/
def lowerStr (s : String) : String :=
  String.mk (s.data.map lowerChar)

theorem lowerChar_digit {c : Char} (h48 : 48 ≤ c.toNat) (h58 : c.toNat < 58) :
    lowerChar c = c := by
  rw [lowerChar, if_neg]
  intro hc
  rw [Bool.and_eq_true] at hc
  have : ('A' : Char).toNat ≤ c.toNat := by
    have := hc.1
    simpa [Char.le_def] using this
  simp only [show ('A' : Char).toNat = 65 from rfl] at this
  omega

theorem lowerStr_append (s t : String) :
    lowerStr (s ++ t) = lowerStr s ++ lowerStr t := by
  apply String.ext
  simp [lowerStr, String.data_append, List.map_append]

theorem lowerStr_natToStr (n : Nat) : lowerStr (natToStr n) = natToStr n := by
  apply String.ext
  show List.map lowerChar (natToStr n).data = (natToStr n).data
  have : ∀ c ∈ (natToStr n).data, lowerChar c = c := by
    intro c hc
    obtain ⟨h1, h2⟩ := natToStr_digits hc
    exact lowerChar_digit h1 h2
  rw [List.map_congr_left this]
  exact List.map_id' _

/-! ## Name deduplication — `getDeDuplicatedColumnMappings`
(src/server.js lines 77-109) -/

/-- Type-specific options blob of a source field (the parts the engine
reads: `options.precision` and `options.linkedTableId`). -/
structure FieldOptions where
  precision : Option Nat := none
  linkedTableId : Option String := none
deriving Repr, DecidableEq

/-- A source field of the base schema. -/
structure AirtableField where
  id : String
  name : String
  type : String
  options : Option FieldOptions := none
  description : Option String := none
deriving Repr, DecidableEq

/-- The record pushed by `getDeDuplicatedColumnMappings` for each field. -/
structure ColumnMapping where
  airtableFieldId : String
  airtableName : String
  airtableType : String
  airtableOptions : Option FieldOptions
  airtableDescription : Option String
  sqliteName : String
  isAirtablePrimaryField : Bool
deriving Repr, DecidableEq

/-- The `while (usedSQLiteNames.has(newNameTry.toLowerCase()))` search of
src/server.js lines 89-94, driven by fuel (`used.length + 1` suffices, see
`exists_free_suffix`). -/
def findSuffixName (used : List String) (base : String) : Nat → Nat → String
  | 0, suffix => base ++ "_" ++ natToStr suffix
  | fuel + 1, suffix =>
    let cand := base ++ "_" ++ natToStr suffix
    if lowerStr cand ∈ used then findSuffixName used base fuel (suffix + 1) else cand

/-- The name-choice step of the loop body (src/server.js lines 82-96). -/
def dedupChoose (used : List String) (pk base : String) : String :=
  if lowerStr base = lowerStr pk ∨ lowerStr base ∈ used then
    findSuffixName used (if lowerStr base = lowerStr pk then pk else base)
      (used.length + 1) 1
  else base

/-- The mapping record pushed for field `f` with final name `nm`
(src/server.js lines 98-106). -/
def mkMapping (pfid : Option String) (f : AirtableField) (nm : String) : ColumnMapping :=
  { airtableFieldId := f.id, airtableName := f.name, airtableType := f.type,
    airtableOptions := f.options, airtableDescription := f.description,
    sqliteName := nm, isAirtablePrimaryField := decide (pfid = some f.id) }

/-- The field loop of `getDeDuplicatedColumnMappings`, carrying the
`usedSQLiteNames` set (as a list of lowercased names). -/
def dedupGo (pfid : Option String) (pk : String) :
    List AirtableField → List String → List ColumnMapping
  | [], _ => []
  | f :: rest, used =>
    mkMapping pfid f (dedupChoose used pk (sanitizeColumnName f.name)) ::
      dedupGo pfid pk rest
        (lowerStr (dedupChoose used pk (sanitizeColumnName f.name)) :: used)

/-- Embedding of `getDeDuplicatedColumnMappings` (src/server.js lines 77-109). -/
def getDeDuplicatedColumnMappings (airtableFields : List AirtableField)
    (tableSchemaPrimaryFieldId : Option String)
    (existingPKSqliteName : String := "id") : List ColumnMapping :=
  dedupGo tableSchemaPrimaryFieldId existingPKSqliteName airtableFields
    [lowerStr existingPKSqliteName]

theorem string_append_cancel_left {s t u : String} (h : s ++ t = s ++ u) : t = u := by
  apply String.ext
  have hd := congrArg String.data h
  rw [String.data_append, String.data_append] at hd
  exact List.append_cancel_left hd

theorem suffix_candidates_inj (base : String) {n m : Nat}
    (h : lowerStr (base ++ "_" ++ natToStr n) = lowerStr (base ++ "_" ++ natToStr m)) :
    n = m := by
  rw [lowerStr_append, lowerStr_append, lowerStr_append, lowerStr_append] at h
  have h1 := string_append_cancel_left h
  rw [lowerStr_natToStr, lowerStr_natToStr] at h1
  exact natToStr_inj h1

theorem exists_free_suffix (used : List String) (base : String) (s : Nat) :
    ∃ j, j < used.length + 1 ∧ lowerStr (base ++ "_" ++ natToStr (s + j)) ∉ used := by
  by_contra hall
  push_neg at hall
  have hinj : Set.InjOn (fun j : Nat => lowerStr (base ++ "_" ++ natToStr (s + j)))
      (Finset.range (used.length + 1)) := by
    intro a _ b _ hab
    have := suffix_candidates_inj base hab
    omega
  have hsub : (Finset.range (used.length + 1)).image
      (fun j => lowerStr (base ++ "_" ++ natToStr (s + j))) ⊆ used.toFinset := by
    intro x hx
    rw [Finset.mem_image] at hx
    obtain ⟨j, hj, rfl⟩ := hx
    exact List.mem_toFinset.mpr (hall j (Finset.mem_range.mp hj))
  have h1 := Finset.card_le_card hsub
  rw [Finset.card_image_of_injOn hinj, Finset.card_range] at h1
  have h2 := used.toFinset_card_le
  omega

theorem findSuffixName_spec (used : List String) (base : String) :
    ∀ (fuel s : Nat),
    (∃ j, j < fuel ∧ lowerStr (base ++ "_" ++ natToStr (s + j)) ∉ used) →
    ∃ n, s ≤ n ∧
      findSuffixName used base fuel s = base ++ "_" ++ natToStr n ∧
      lowerStr (base ++ "_" ++ natToStr n) ∉ used ∧
      ∀ m, s ≤ m → m < n → lowerStr (base ++ "_" ++ natToStr m) ∈ used := by
  intro fuel
  induction fuel with
  | zero =>
    intro s hex
    obtain ⟨j, hj, _⟩ := hex
    omega
  | succ f ih =>
    intro s hex
    by_cases hc : lowerStr (base ++ "_" ++ natToStr s) ∈ used
    · have hex' : ∃ j, j < f ∧ lowerStr (base ++ "_" ++ natToStr (s + 1 + j)) ∉ used := by
        obtain ⟨j, hj, hfree⟩ := hex
        cases j with
        | zero => exact absurd (by simpa using hfree) (by simpa using hc)
        | succ j' =>
          exact ⟨j', by omega, by rw [show s + 1 + j' = s + (j' + 1) by omega]; exact hfree⟩
      obtain ⟨n, hn1, hn2, hn3, hn4⟩ := ih (s + 1) hex'
      refine ⟨n, by omega, ?_, hn3, ?_⟩
      · show (if lowerStr (base ++ "_" ++ natToStr s) ∈ used
          then findSuffixName used base f (s + 1)
          else base ++ "_" ++ natToStr s) = base ++ "_" ++ natToStr n
        rw [if_pos hc]
        exact hn2
      · intro m hm1 hm2
        rcases Nat.eq_or_lt_of_le hm1 with he | hlt
        · rw [← he]; exact hc
        · exact hn4 m hlt hm2
    · refine ⟨s, le_refl s, ?_, hc, by omega⟩
      show (if lowerStr (base ++ "_" ++ natToStr s) ∈ used
        then findSuffixName used base f (s + 1)
        else base ++ "_" ++ natToStr s) = base ++ "_" ++ natToStr s
      rw [if_neg hc]

/-- The name chosen by the loop body is always fresh with respect to the
current `usedSQLiteNames` set. -/
theorem dedupChoose_fresh (used : List String) (pk base : String) :
    lowerStr (dedupChoose used pk base) ∉ used := by
  rw [dedupChoose]
  by_cases hc : lowerStr base = lowerStr pk ∨ lowerStr base ∈ used
  · rw [if_pos hc]
    set b := if lowerStr base = lowerStr pk then pk else base with hb
    obtain ⟨j, hj, hfree⟩ := exists_free_suffix used b 1
    obtain ⟨n, _, h2, h3, _⟩ :=
      findSuffixName_spec used b (used.length + 1) 1 ⟨j, hj, hfree⟩
    rw [h2]
    exact h3
  · rw [if_neg hc]
    intro hmem
    exact hc (Or.inr hmem)

theorem dedupGo_length (pfid : Option String) (pk : String) :
    ∀ (fields : List AirtableField) (used : List String),
    (dedupGo pfid pk fields used).length = fields.length
  | [], _ => rfl
  | _ :: rest, used => by
    show _ + 1 = _ + 1
    rw [dedupGo_length pfid pk rest]

/-- Every produced name avoids the incoming used set, and the produced
(lowercased) names are pairwise distinct. -/
theorem dedupGo_fresh_nodup (pfid : Option String) (pk : String) :
    ∀ (fields : List AirtableField) (used : List String),
    ((dedupGo pfid pk fields used).map (fun m => lowerStr m.sqliteName)).Nodup ∧
    ∀ m ∈ dedupGo pfid pk fields used, lowerStr m.sqliteName ∉ used
  | [], _ => ⟨List.nodup_nil, by intro m hm; exact absurd hm (by simp [dedupGo])⟩
  | f :: rest, used => by
    set c := dedupChoose used pk (sanitizeColumnName f.name) with hc
    obtain ⟨ihnodup, ihfresh⟩ := dedupGo_fresh_nodup pfid pk rest (lowerStr c :: used)
    constructor
    · show (lowerStr (mkMapping pfid f c).sqliteName ::
        (dedupGo pfid pk rest (lowerStr c :: used)).map (fun m => lowerStr m.sqliteName)).Nodup
      rw [List.nodup_cons]
      constructor
      · intro hmem
        rw [List.mem_map] at hmem
        obtain ⟨m, hm, heq⟩ := hmem
        exact ihfresh m hm (by rw [heq]; exact List.mem_cons_self _ _)
      · exact ihnodup
    · intro m hm
      rcases List.mem_cons.mp hm with he | ht
      · rw [he]
        exact dedupChoose_fresh used pk (sanitizeColumnName f.name)
      · intro hmem
        exact ihfresh m ht (List.mem_cons_of_mem _ hmem)

/-- The `usedSQLiteNames` set as it stands when the loop reaches field
index `i`. -/
def dedupUsedAt (pfid : Option String) (pk : String) :
    List AirtableField → List String → Nat → List String
  | _, used, 0 => used
  | [], used, _ + 1 => used
  | f :: rest, used, i + 1 =>
    dedupUsedAt pfid pk rest
      (lowerStr (dedupChoose used pk (sanitizeColumnName f.name)) :: used) i

theorem dedupGo_get (pfid : Option String) (pk : String) :
    ∀ (fields : List AirtableField) (used : List String) (i : Nat)
    (h : i < fields.length),
    (dedupGo pfid pk fields used).get ⟨i, by rw [dedupGo_length]; exact h⟩ =
      mkMapping pfid (fields.get ⟨i, h⟩)
        (dedupChoose (dedupUsedAt pfid pk fields used i) pk
          (sanitizeColumnName (fields.get ⟨i, h⟩).name)) := by
  intro fields
  induction fields with
  | nil => intro used i h; exact absurd h (by simp)
  | cons f rest ih =>
    intro used i h
    cases i with
    | zero => rfl
    | succ j =>
      have hj : j < rest.length := by simpa using h
      exact ih (lowerStr (dedupChoose used pk (sanitizeColumnName f.name)) :: used) j hj

theorem dedupUsedAt_eq (pfid : Option String) (pk : String) :
    ∀ (fields : List AirtableField) (used : List String) (i : Nat),
    dedupUsedAt pfid pk fields used i =
      ((dedupGo pfid pk fields used).take i).reverse.map
        (fun m => lowerStr m.sqliteName) ++ used := by
  intro fields
  induction fields with
  | nil =>
    intro used i
    cases i with
    | zero => rfl
    | succ j => show used = _; simp [dedupGo]
  | cons f rest ih =>
    intro used i
    cases i with
    | zero => rfl
    | succ j =>
      show dedupUsedAt pfid pk rest
          (lowerStr (dedupChoose used pk (sanitizeColumnName f.name)) :: used) j = _
      rw [ih]
      show _ = ((mkMapping pfid f (dedupChoose used pk (sanitizeColumnName f.name)) ::
          dedupGo pfid pk rest _).take (j + 1)).reverse.map _ ++ used
      rw [List.take_succ_cons, List.reverse_cons, List.map_append]
      simp only [List.map_cons, List.map_nil, mkMapping]
      rw [List.append_assoc]
      rfl

/-! ## Claim C3 — sanitize output shape and idempotence -/

theorem sanitize_output_chars (x : String) :
    sanitizeColumnName x = "_invalid_name_" ∨
      (!(sanitizeColumnName x).data.isEmpty &&
        (sanitizeColumnName x).data.all isWordChar) = true := by
  rw [sanitizeColumnName]
  set s1 := collapseU (replaceInvalid x.data) with hs1
  set s2 := if s1.length > 1 then dropTrailingUnderscores (dropLeadingUnderscores s1) else s1
    with hs2
  by_cases he : s2.isEmpty = true
  · rw [if_pos he]; exact Or.inl rfl
  · rw [if_neg he]
    refine Or.inr ?_
    have hall1 : s1.all isWordChar = true := by
      rw [hs1]
      apply collapseU_all
      rw [List.all_eq_true]
      intro c hc
      rw [replaceInvalid, List.mem_map] at hc
      obtain ⟨d, _, hd⟩ := hc
      by_cases hw : isWordChar d = true
      · rw [← hd, if_pos hw]; exact hw
      · rw [← hd, if_neg hw]; rfl
    have hall2 : s2.all isWordChar = true := by
      rw [hs2]
      by_cases hlen : s1.length > 1
      · rw [if_pos hlen]
        exact dropTrailing_all (dropWhile_all hall1)
      · rw [if_neg hlen]; exact hall1
    show (!(String.mk s2).data.isEmpty && (String.mk s2).data.all isWordChar) = true
    rw [Bool.and_eq_true]
    exact ⟨by simpa using he, hall2⟩

/-- A string whose characters are word characters, with no consecutive
underscores and no leading or trailing underscore, is a fixed point of
`sanitizeColumnName`; so is any single word character. -/
theorem sanitize_fixed (l : List Char) (hne : l ≠ [])
    (hall : l.all isWordChar = true) (hnc : noConsecUnd l = true)
    (hhead : l.length > 1 → ∀ c, l.head? = some c → c ≠ '_')
    (hlast : l.length > 1 → ∀ c, l.getLast? = some c → c ≠ '_') :
    sanitizeColumnName (String.mk l) = String.mk l := by
  rw [sanitizeColumnName]
  have hreplace : replaceInvalid (String.mk l).data = l := by
    show replaceInvalid l = l
    rw [replaceInvalid]
    have : ∀ c ∈ l, (if isWordChar c then c else '_') = c := by
      intro c hc
      rw [if_pos (by rw [List.all_eq_true] at hall; exact hall c hc)]
    rw [List.map_congr_left this]
    exact List.map_id' _
  rw [hreplace, collapseU_id_of_noConsec l hnc]
  by_cases hlen : l.length > 1
  · rw [if_pos hlen]
    have hdl : dropLeadingUnderscores l = l := by
      rw [dropLeadingUnderscores]
      cases l with
      | nil => rfl
      | cons c r =>
        rw [List.dropWhile_cons, if_neg]
        simp only [decide_eq_true_eq]
        exact hhead hlen c rfl
    rw [hdl, dropTrailing_id_of_last (hlast hlen)]
    rw [if_neg (by simpa using hne)]
  · rw [if_neg hlen]
    rw [if_neg (by simpa using hne)]

theorem sanitize_not_placeholder_head (x : String)
    (hnp : sanitizeColumnName x ≠ "_invalid_name_") :
    sanitizeColumnName (sanitizeColumnName x) = sanitizeColumnName x := by
  have hall1 : (collapseU (replaceInvalid x.data)).all isWordChar = true := by
    apply collapseU_all
    rw [List.all_eq_true]
    intro c hc
    rw [replaceInvalid, List.mem_map] at hc
    obtain ⟨d, _, hd⟩ := hc
    by_cases hw : isWordChar d = true
    · rw [← hd, if_pos hw]; exact hw
    · rw [← hd, if_neg hw]; rfl
  have hnc1 : noConsecUnd (collapseU (replaceInvalid x.data)) = true := collapseU_noConsec _
  set s1 := collapseU (replaceInvalid x.data) with hs1
  set s2 := if s1.length > 1 then dropTrailingUnderscores (dropLeadingUnderscores s1) else s1
    with hs2
  have hx : sanitizeColumnName x =
      (if s2.isEmpty then "_invalid_name_" else String.mk s2) := rfl
  by_cases he : s2.isEmpty = true
  · rw [hx, if_pos he] at hnp; exact absurd rfl hnp
  · rw [hx, if_neg he]
    apply sanitize_fixed
    · simpa using he
    · rw [hs2]
      by_cases hlen : s1.length > 1
      · rw [if_pos hlen]; exact dropTrailing_all (dropWhile_all hall1)
      · rw [if_neg hlen]; exact hall1
    · rw [hs2]
      by_cases hlen : s1.length > 1
      · rw [if_pos hlen]; exact dropTrailing_noConsec (dropWhile_noConsec hnc1)
      · rw [if_neg hlen]; exact hnc1
    · intro hlen2 c hc
      rw [hs2] at hc hlen2
      by_cases hlen : s1.length > 1
      · rw [if_pos hlen] at hc
        rcases dropTrailing_head (dropLeadingUnderscores s1) with hnil | hh
        · rw [hnil] at hc; exact absurd hc (by simp)
        · rw [hh] at hc
          have := dropWhile_head_not (p := fun c => c = '_') hc
          simpa using this
      · rw [if_neg hlen] at hc hlen2
        omega
    · intro hlen2 c hc
      rw [hs2] at hc hlen2
      by_cases hlen : s1.length > 1
      · rw [if_pos hlen] at hc
        rcases dropTrailing_last (dropLeadingUnderscores s1) with hnil | ⟨e, he2, hne⟩
        · rw [hnil] at hc; exact absurd hc (by simp)
        · rw [he2] at hc
          have : e = c := by simpa using hc
          rw [← this]; exact hne
      · rw [if_neg hlen] at hc hlen2
        omega

/-- C3 counterexample input: the empty source name. `sanitizeColumnName ""`
is the placeholder `_invalid_name_`, whose own sanitization strips the
leading and trailing underscores, so `sanitize` is not idempotent at `""`. -/
theorem claim_C3_counterexample :
    sanitizeColumnName "" = "_invalid_name_" ∧
    sanitizeColumnName (sanitizeColumnName "") = "invalid_name" ∧
    sanitizeColumnName (sanitizeColumnName "") ≠ sanitizeColumnName "" := by
  refine ⟨by decide, by decide, by decide⟩

/-- C3 (amended): for every input string `x`, `sanitizeColumnName x` matches
`^[A-Za-z0-9_]+$` or equals the fixed placeholder `_invalid_name_`; and
`sanitizeColumnName` is idempotent at every `x` whose output is not the
placeholder (idempotence fails exactly on the placeholder output, see the
counterexample). -/
theorem claim_C3_amended (x : String) :
    (matchesWordRegex (sanitizeColumnName x) = true ∨
      sanitizeColumnName x = "_invalid_name_") ∧
    (sanitizeColumnName x ≠ "_invalid_name_" →
      sanitizeColumnName (sanitizeColumnName x) = sanitizeColumnName x) := by
  constructor
  · rcases sanitize_output_chars x with h | h
    · exact Or.inr h
    · exact Or.inl h
  · exact sanitize_not_placeholder_head x

/-- Witness for the amended C3 at the concrete input `"a b"`. -/
theorem claim_C3_amended_witness :
    sanitizeColumnName (sanitizeColumnName "a b") = sanitizeColumnName "a b" :=
  (claim_C3_amended "a b").2 (by decide)

/-! ## Claim C2 — deduplication properties -/

theorem lower_id : lowerStr "id" = "id" := by decide

theorem getDeDuplicated_length (fields : List AirtableField) (pfid : Option String)
    (pk : String) :
    (getDeDuplicatedColumnMappings fields pfid pk).length = fields.length :=
  dedupGo_length pfid pk fields _

/-- The base string to which the collision suffix is appended: the reserved
key itself when the sanitized name case-insensitively equals it, else the
sanitized name (src/server.js lines 86-88). -/
def suffixBase (base : String) : String :=
  if lowerStr base = "id" then "id" else base

/-- C2: processing source fields in declared order, `getDeDuplicatedColumnMappings`
returns a list of the same length whose resolved names are pairwise distinct
case-insensitively and distinct from the reserved key `id`; a field whose
sanitized name is not yet used keeps it unsuffixed, collisions receive the
suffix `_n` with the lowest unused integer `n`, the mapping is a
deterministic function of the ordered field list, and a field named exactly
`ID` is never assigned `id` and receives a suffixed name. -/
theorem claim_C2 (fields : List AirtableField) (pfid : Option String) :
    ((getDeDuplicatedColumnMappings fields pfid "id").length = fields.length) ∧
    (((getDeDuplicatedColumnMappings fields pfid "id").map
        (fun m => lowerStr m.sqliteName)).Nodup) ∧
    (∀ m ∈ getDeDuplicatedColumnMappings fields pfid "id",
        lowerStr m.sqliteName ≠ "id") ∧
    (∀ fields2, fields2 = fields →
        getDeDuplicatedColumnMappings fields2 pfid "id" =
        getDeDuplicatedColumnMappings fields pfid "id") ∧
    (∀ i (h : i < fields.length),
      (lowerStr (sanitizeColumnName (fields.get ⟨i, h⟩).name) ∉
          ("id" :: (((getDeDuplicatedColumnMappings fields pfid "id").take i).map
            (fun m => lowerStr m.sqliteName))) →
        ((getDeDuplicatedColumnMappings fields pfid "id").get
            ⟨i, by rw [getDeDuplicated_length]; exact h⟩).sqliteName =
          sanitizeColumnName (fields.get ⟨i, h⟩).name) ∧
      (lowerStr (sanitizeColumnName (fields.get ⟨i, h⟩).name) ∈
          ("id" :: (((getDeDuplicatedColumnMappings fields pfid "id").take i).map
            (fun m => lowerStr m.sqliteName))) →
        ∃ n, 1 ≤ n ∧
          ((getDeDuplicatedColumnMappings fields pfid "id").get
              ⟨i, by rw [getDeDuplicated_length]; exact h⟩).sqliteName =
            suffixBase (sanitizeColumnName (fields.get ⟨i, h⟩).name) ++ "_" ++ natToStr n ∧
          ∀ k, 1 ≤ k → k < n →
            lowerStr (suffixBase (sanitizeColumnName (fields.get ⟨i, h⟩).name) ++ "_" ++
                natToStr k) ∈
              ("id" :: (((getDeDuplicatedColumnMappings fields pfid "id").take i).map
                (fun m => lowerStr m.sqliteName))))) ∧
    (∀ i (h : i < fields.length), (fields.get ⟨i, h⟩).name = "ID" →
        ((getDeDuplicatedColumnMappings fields pfid "id").get
            ⟨i, by rw [getDeDuplicated_length]; exact h⟩).sqliteName ≠ "id" ∧
        ∃ n, 1 ≤ n ∧
          ((getDeDuplicatedColumnMappings fields pfid "id").get
              ⟨i, by rw [getDeDuplicated_length]; exact h⟩).sqliteName =
            "id_" ++ natToStr n) := by
  have hfresh := dedupGo_fresh_nodup pfid "id" fields [lowerStr "id"]
  -- Membership transfer between the running used set and its reconstruction
  have hmem : ∀ i y, y ∈ dedupUsedAt pfid "id" fields [lowerStr "id"] i ↔
      (y ∈ ("id" :: (((getDeDuplicatedColumnMappings fields pfid "id").take i).map
        (fun m => lowerStr m.sqliteName)))) := by
    intro i y
    rw [dedupUsedAt_eq, lower_id]
    constructor
    · intro hy
      rcases List.mem_append.mp hy with h1 | h2
      · rw [List.mem_map] at h1
        obtain ⟨m, hm, rfl⟩ := h1
        rw [List.mem_reverse] at hm
        exact List.mem_cons_of_mem _ (List.mem_map.mpr ⟨m, hm, rfl⟩)
      · have : y = "id" := by simpa using h2
        rw [this]; exact List.mem_cons_self _ _
    · intro hy
      rcases List.mem_cons.mp hy with h1 | h2
      · exact List.mem_append.mpr (Or.inr (by rw [h1]; exact List.mem_singleton.mpr rfl))
      · rw [List.mem_map] at h2
        obtain ⟨m, hm, rfl⟩ := h2
        exact List.mem_append.mpr
          (Or.inl (List.mem_map.mpr ⟨m, List.mem_reverse.mpr hm, rfl⟩))
  -- Core positional characterization
  have hpos : ∀ i (h : i < fields.length),
      ((getDeDuplicatedColumnMappings fields pfid "id").get
          ⟨i, by rw [getDeDuplicated_length]; exact h⟩).sqliteName =
        dedupChoose (dedupUsedAt pfid "id" fields [lowerStr "id"] i) "id"
          (sanitizeColumnName (fields.get ⟨i, h⟩).name) := by
    intro i h
    exact congrArg (fun m => m.sqliteName) (dedupGo_get pfid "id" fields [lowerStr "id"] i h)
  refine ⟨getDeDuplicated_length fields pfid "id", hfresh.1, ?_, ?_, ?_, ?_⟩
  · intro m hm heq
    exact hfresh.2 m hm (by rw [heq, ← lower_id]; exact List.mem_singleton.mpr rfl)
  · intro fields2 h2; rw [h2]
  · intro i h
    set base := sanitizeColumnName (fields.get ⟨i, h⟩).name with hbase
    constructor
    · intro hnot
      rw [hpos i h, dedupChoose, if_neg]
      rw [lower_id]
      rintro (h1 | h2)
      · exact hnot (by rw [h1]; exact List.mem_cons_self _ _)
      · exact hnot ((hmem i _).mp h2)
    · intro hin
      have hcond : lowerStr base = lowerStr "id" ∨
          lowerStr base ∈ dedupUsedAt pfid "id" fields [lowerStr "id"] i :=
        Or.inr ((hmem i _).mpr hin)
      rw [hpos i h, dedupChoose, if_pos hcond]
      obtain ⟨j, hj, hfree⟩ := exists_free_suffix
        (dedupUsedAt pfid "id" fields [lowerStr "id"] i)
        (if lowerStr base = lowerStr "id" then "id" else base) 1
      obtain ⟨n, hn1, hn2, _, hn4⟩ := findSuffixName_spec
        (dedupUsedAt pfid "id" fields [lowerStr "id"] i)
        (if lowerStr base = lowerStr "id" then "id" else base)
        (_ + 1) 1 ⟨j, hj, hfree⟩
      refine ⟨n, hn1, ?_, ?_⟩
      · rw [hn2, suffixBase, lower_id]
      · intro k hk1 hk2
        have := hn4 k hk1 hk2
        rw [suffixBase, ← lower_id]
        exact (hmem i _).mp this
  · intro i h hname
    have hbase : sanitizeColumnName (fields.get ⟨i, h⟩).name = "ID" := by
      rw [hname]; decide
    have hlowid : lowerStr "ID" = "id" := by decide
    have hin : lowerStr (sanitizeColumnName (fields.get ⟨i, h⟩).name) ∈
        ("id" :: (((getDeDuplicatedColumnMappings fields pfid "id").take i).map
          (fun m => lowerStr m.sqliteName))) := by
      rw [hbase, hlowid]; exact List.mem_cons_self _ _
    have hcond : lowerStr (sanitizeColumnName (fields.get ⟨i, h⟩).name) = lowerStr "id" ∨
        lowerStr (sanitizeColumnName (fields.get ⟨i, h⟩).name) ∈
          dedupUsedAt pfid "id" fields [lowerStr "id"] i := by
      rw [hbase, hlowid, lower_id]; exact Or.inl rfl
    have hval : ((getDeDuplicatedColumnMappings fields pfid "id").get
        ⟨i, by rw [getDeDuplicated_length]; exact h⟩).sqliteName =
        findSuffixName (dedupUsedAt pfid "id" fields [lowerStr "id"] i) "id"
          ((dedupUsedAt pfid "id" fields [lowerStr "id"] i).length + 1) 1 := by
      rw [hpos i h, dedupChoose, if_pos hcond, hbase, hlowid, lower_id, if_pos rfl]
    obtain ⟨j, hj, hfree⟩ := exists_free_suffix
      (dedupUsedAt pfid "id" fields [lowerStr "id"] i) "id" 1
    obtain ⟨n, hn1, hn2, hn3, _⟩ := findSuffixName_spec
      (dedupUsedAt pfid "id" fields [lowerStr "id"] i) "id" (_ + 1) 1 ⟨j, hj, hfree⟩
    constructor
    · intro heq
      have hidmem : ("id" : String) ∈ dedupUsedAt pfid "id" fields [lowerStr "id"] i :=
        (hmem i "id").mpr (List.mem_cons_self _ _)
      have : lowerStr ("id" ++ "_" ++ natToStr n) ∈
          dedupUsedAt pfid "id" fields [lowerStr "id"] i := by
        rw [← hn2, ← hval, heq, lower_id]
        exact hidmem
      exact hn3 this
    · exact ⟨n, hn1, by
        rw [hval, hn2, show (("id" : String) ++ "_") = "id_" from by decide]⟩

/-- Witness for C2 at a one-field table whose field is named `ID`: the
resolved name avoids the reserved key. -/
theorem claim_C2_witness :
    ((getDeDuplicatedColumnMappings
        [{ id := "fld1", name := "ID", type := "singleLineText" }] none "id").get
      ⟨0, by decide⟩).sqliteName ≠ "id" :=
  ((claim_C2 [{ id := "fld1", name := "ID", type := "singleLineText" }]
      none).2.2.2.2.2 0 (by decide) rfl).1

/-! ## Type Mapper — `mapAirtableTypeToSQLite` and `formatValueForSQLite`
(src/server.js lines 34-75)

Field values are JS values; they are modeled by `JSValue`. Numbers are
modeled as integers (the claims under verification never depend on
non-integral numerals); `nan` stands for the JS `NaN` produced by failed
numeric coercion. -/

inductive JSValue where
  | null
  | nan
  | boolean (b : Bool)
  | num (n : Int)
  | str (s : String)
  | arr (xs : List JSValue)
  | obj (nm em oid : Option String)
deriving Repr

/-- JS truthiness of a value. -/
def truthy : JSValue → Bool
  | .null => false
  | .nan => false
  | .boolean b => b
  | .num n => n != 0
  | .str s => s != ""
  | .arr _ => true
  | .obj _ _ _ => true

/-- JS `typeof value === 'object'` for a non-null value. -/
def isObjectJS : JSValue → Bool
  | .arr _ => true
  | .obj _ _ _ => true
  | _ => false

/-- Decimal rendering of an integer, as JS number-to-string. -/
def intToStr (n : Int) : String :=
  if n < 0 then "-" ++ natToStr n.natAbs else natToStr n.toNat

def escapeJSONChar (c : Char) : List Char :=
  if c = '"' ∨ c = '\\' then ['\\', c] else [c]

def jsonQuote (s : String) : String :=
  "\"" ++ String.mk (s.data.flatMap escapeJSONChar) ++ "\""

/-- Serialized members of a collaborator-like object (absent properties are
omitted, as by `JSON.stringify`). -/
def jsonObjFields (nm em oid : Option String) : String :=
  String.intercalate ","
    ((nm.map (fun s => "\"name\":" ++ jsonQuote s)).toList ++
     (em.map (fun s => "\"email\":" ++ jsonQuote s)).toList ++
     (oid.map (fun s => "\"id\":" ++ jsonQuote s)).toList)

mutual

/-- Embedding of `JSON.stringify` on the modeled values. -/
def jsonStringify : JSValue → String
  | .null => "null"
  | .nan => "null"
  | .boolean b => if b then "true" else "false"
  | .num n => intToStr n
  | .str s => jsonQuote s
  | .arr xs => "[" ++ jsonItems xs ++ "]"
  | .obj nm em oid => "\x7b" ++ jsonObjFields nm em oid ++ "\x7d"

def jsonItems : List JSValue → String
  | [] => ""
  | [x] => jsonStringify x
  | x :: y :: rest => jsonStringify x ++ "," ++ jsonItems (y :: rest)

end

mutual

/-- Embedding of the JS `String(value)` conversion. -/
def jsToString : JSValue → String
  | .null => "null"
  | .nan => "NaN"
  | .boolean b => if b then "true" else "false"
  | .num n => intToStr n
  | .str s => s
  | .arr xs => jsArrayToString xs
  | .obj _ _ _ => "[object Object]"

/-- `Array.prototype.toString`: elements joined with commas, null elements
rendered empty. -/
def jsArrayToString : List JSValue → String
  | [] => ""
  | [x] => match x with | .null => "" | v => jsToString v
  | x :: y :: rest =>
    (match x with | .null => "" | v => jsToString v) ++ "," ++ jsArrayToString (y :: rest)

end

/-- Embedding of the JS `Number(value)` coercion. Strings are handled for
the integral-numeral shapes the model represents; all other strings coerce
to `nan` (JS general numeric parsing of non-integral numerals lies outside
the integer value model). -/
def jsToNumber : JSValue → JSValue
  | .null => .num 0
  | .nan => .nan
  | .boolean b => .num (if b then 1 else 0)
  | .num n => .num n
  | .str s =>
    if s = "" then .num 0
    else if s.data.all (fun c => 48 ≤ c.toNat && c.toNat < 58) then .num (digitsVal s.data)
    else .nan
  | .arr _ => .nan
  | .obj _ _ _ => .nan

/-- First truthy of an optional string, else a default (JS `||`). -/
def strValOr (o : Option String) (dflt : JSValue) : JSValue :=
  match o with
  | some s => if s != "" then .str s else dflt
  | none => dflt

/-- `value.name || value.email || value.id` on a collaborator object. -/
def collabDisplay (nm em oid : Option String) : JSValue :=
  strValOr nm (strValOr em (strValOr oid
    (match oid with | some s => .str s | none => .null)))

/-- Embedding of `mapAirtableTypeToSQLite` (src/server.js lines 34-58). -/
def mapAirtableTypeToSQLite (airtableType : String) (options : Option FieldOptions) :
    String :=
  if airtableType ∈ ["singleLineText", "multilineText", "richText", "email", "url",
      "phoneNumber", "singleSelect", "multipleSelects", "formula", "rollup", "lookup",
      "singleCollaborator", "multipleCollaborators", "createdBy", "lastModifiedBy",
      "attachment", "barcode", "button", "externalSyncSource", "aiText"] then "TEXT"
  else if airtableType ∈ ["autonumber", "count", "rating"] then "INTEGER"
  else if airtableType ∈ ["number", "currency", "percent", "duration"] then
    (match options with
     | some o =>
       (match o.precision with
        | some p => if p > 0 then "REAL" else "INTEGER"
        | none => "INTEGER")
     | none => "INTEGER")
  else if airtableType = "checkbox" then "INTEGER"
  else if airtableType ∈ ["date", "dateTime", "createdTime", "lastModifiedTime"] then "TEXT"
  else if airtableType = "multipleRecordLinks" then "TEXT"
  else "TEXT"

/-- Embedding of `formatValueForSQLite` (src/server.js lines 60-75). The
third JS parameter `airtableOptions` is accepted and, as in the source,
unused. -/
def formatValueForSQLite (value : JSValue) (airtableType : String)
    (airtableOptions : Option FieldOptions := none) : JSValue :=
  match value with
  | .null => .null
  | v =>
    if airtableType = "checkbox" then .num (if truthy v then 1 else 0)
    else if airtableType = "multipleSelects" ∨ airtableType = "multipleCollaborators" ∨
        airtableType = "multipleRecordLinks" ∨ airtableType = "attachment" then
      .str (jsonStringify v)
    else if airtableType = "singleCollaborator" then
      (if isObjectJS v then
        (match v with
         | .obj nm em oid => collabDisplay nm em oid
         | w => w)
      else v)
    else if airtableType = "date" ∨ airtableType = "dateTime" then v
    else if airtableType = "number" ∨ airtableType = "currency" ∨
        airtableType = "percent" ∨ airtableType = "duration" then jsToNumber v
    else .str (jsToString v)

/-! ## Claim C4 — type mapping and value encoding -/

theorem mapNumeric_none (t : String)
    (ht : t ∈ (["number", "currency", "percent", "duration"] : List String)) :
    mapAirtableTypeToSQLite t none = "INTEGER" := by
  fin_cases ht <;> rfl

theorem mapNumeric_noprec (t : String)
    (ht : t ∈ (["number", "currency", "percent", "duration"] : List String))
    (ltid : Option String) :
    mapAirtableTypeToSQLite t (some { precision := none, linkedTableId := ltid }) =
      "INTEGER" := by
  fin_cases ht <;> rfl

theorem mapNumeric_prec (t : String)
    (ht : t ∈ (["number", "currency", "percent", "duration"] : List String))
    (p : Nat) (ltid : Option String) :
    mapAirtableTypeToSQLite t (some { precision := some p, linkedTableId := ltid }) =
      (if p > 0 then "REAL" else "INTEGER") := by
  fin_cases ht <;> rfl

/-- C4: numeric type tags map to REAL exactly when the options specify a
non-zero precision, else INTEGER; and the encoder obeys the stated rules:
null passes through, booleans become 1/0, multi-valued types serialize to a
JSON array string, a single collaborator yields display name else email
else raw id, numeric types coerce to a number, and every other
non-relationship type yields the textual form of the value. -/
theorem claim_C4 :
    (∀ t, t ∈ (["number", "currency", "percent", "duration"] : List String) →
      ∀ opts, (mapAirtableTypeToSQLite t opts = "REAL" ↔
          ∃ o p, opts = some o ∧ o.precision = some p ∧ p ≠ 0) ∧
        (mapAirtableTypeToSQLite t opts = "REAL" ∨
          mapAirtableTypeToSQLite t opts = "INTEGER")) ∧
    (∀ t opts, formatValueForSQLite .null t opts = .null) ∧
    (∀ b opts, formatValueForSQLite (.boolean b) "checkbox" opts =
      .num (if b then 1 else 0)) ∧
    (∀ t, t ∈ (["multipleSelects", "multipleCollaborators", "attachment"] : List String) →
      ∀ xs opts, formatValueForSQLite (.arr xs) t opts = .str (jsonStringify (.arr xs)) ∧
        ∃ mid, jsonStringify (.arr xs) = "[" ++ mid ++ "]") ∧
    (∀ nm em oid opts, formatValueForSQLite (.obj nm em oid) "singleCollaborator" opts =
      collabDisplay nm em oid) ∧
    (∀ s em oid, s ≠ "" → collabDisplay (some s) em oid = .str s) ∧
    (∀ e oid, e ≠ "" → collabDisplay none (some e) oid = .str e) ∧
    (∀ i0, collabDisplay none none (some i0) = .str i0) ∧
    (∀ t, t ∈ (["number", "currency", "percent", "duration"] : List String) →
      ∀ n opts, formatValueForSQLite (.num n) t opts = .num n) ∧
    (∀ t, t ∉ (["checkbox", "multipleSelects", "multipleCollaborators",
        "multipleRecordLinks", "attachment", "singleCollaborator",
        "number", "currency", "percent", "duration"] : List String) →
      ∀ s opts, formatValueForSQLite (.str s) t opts = .str s) ∧
    (∀ t, t ∉ (["checkbox", "multipleSelects", "multipleCollaborators",
        "multipleRecordLinks", "attachment", "singleCollaborator", "date", "dateTime",
        "number", "currency", "percent", "duration"] : List String) →
      ∀ v opts, v ≠ JSValue.null → formatValueForSQLite v t opts = .str (jsToString v)) := by
  refine ⟨?_, ?_, ?_, ?_, ?_, ?_, ?_, ?_, ?_, ?_, ?_⟩
  · intro t ht opts
    constructor
    · cases opts with
      | none =>
        rw [mapNumeric_none t ht]
        constructor
        · intro hr; exact absurd hr (by decide)
        · rintro ⟨o, p, ho, _, _⟩; exact absurd ho (by simp)
      | some o =>
        obtain ⟨prec, ltid⟩ := o
        cases prec with
        | none =>
          rw [mapNumeric_noprec t ht]
          constructor
          · intro hr; exact absurd hr (by decide)
          · rintro ⟨o2, p, ho2, hp2, hnz⟩
            have ho : o2 = { precision := none, linkedTableId := ltid } := by
              simpa using ho2.symm
            rw [ho] at hp2
            exact absurd hp2 (by simp)
        | some p =>
          rw [mapNumeric_prec t ht]
          constructor
          · intro hr
            by_cases hz : p > 0
            · exact ⟨{ precision := some p, linkedTableId := ltid }, p, rfl, rfl, by omega⟩
            · rw [if_neg hz] at hr; exact absurd hr (by decide)
          · rintro ⟨o2, p2, ho2, hp2, hnz⟩
            have ho : o2 = { precision := some p, linkedTableId := ltid } := by
              simpa using ho2.symm
            rw [ho] at hp2
            have hpp : p2 = p := by simpa using hp2.symm
            rw [if_pos (show p > 0 by omega)]
    · cases opts with
      | none => rw [mapNumeric_none t ht]; exact Or.inr rfl
      | some o =>
        obtain ⟨prec, ltid⟩ := o
        cases prec with
        | none => rw [mapNumeric_noprec t ht]; exact Or.inr rfl
        | some p =>
          rw [mapNumeric_prec t ht]
          by_cases hz : p > 0
          · rw [if_pos hz]; exact Or.inl rfl
          · rw [if_neg hz]; exact Or.inr rfl
  · intro t opts; rfl
  · intro b opts; rfl
  · intro t ht xs opts
    fin_cases ht <;> exact ⟨rfl, jsonItems xs, rfl⟩
  · intro nm em oid opts; rfl
  · intro s em oid hs
    show (if s != "" then JSValue.str s else _) = .str s
    rw [if_pos (by simpa using hs)]
  · intro e oid hee
    show (if e != "" then JSValue.str e else _) = .str e
    rw [if_pos (by simpa using hee)]
  · intro i0
    show (if i0 != "" then JSValue.str i0 else .str i0) = .str i0
    by_cases hi : (i0 != "") = true
    · rw [if_pos hi]
    · rw [if_neg hi]
  · intro t ht n opts
    fin_cases ht <;> rfl
  · intro t ht s opts
    simp only [List.mem_cons, List.not_mem_nil, or_false, not_or] at ht
    obtain ⟨h1, h2, h3, h4, h5, h6, h7, h8, h9, h10⟩ := ht
    show (if t = "checkbox" then _ else _) = JSValue.str s
    rw [if_neg h1, if_neg (by tauto), if_neg h6]
    by_cases hd : t = "date" ∨ t = "dateTime"
    · rw [if_pos hd]
    · rw [if_neg hd, if_neg (by tauto)]
      rfl
  · intro t ht v opts hv
    simp only [List.mem_cons, List.not_mem_nil, or_false, not_or] at ht
    obtain ⟨h1, h2, h3, h4, h5, h6, hd1, hd2, h7, h8, h9, h10⟩ := ht
    cases v with
    | null => exact absurd rfl hv
    | nan =>
      show (if t = "checkbox" then _ else _) = _
      rw [if_neg h1, if_neg (by tauto), if_neg h6, if_neg (by tauto), if_neg (by tauto)]
    | boolean b =>
      show (if t = "checkbox" then _ else _) = _
      rw [if_neg h1, if_neg (by tauto), if_neg h6, if_neg (by tauto), if_neg (by tauto)]
    | num n =>
      show (if t = "checkbox" then _ else _) = _
      rw [if_neg h1, if_neg (by tauto), if_neg h6, if_neg (by tauto), if_neg (by tauto)]
    | str s =>
      show (if t = "checkbox" then _ else _) = _
      rw [if_neg h1, if_neg (by tauto), if_neg h6, if_neg (by tauto), if_neg (by tauto)]
    | arr xs =>
      show (if t = "checkbox" then _ else _) = _
      rw [if_neg h1, if_neg (by tauto), if_neg h6, if_neg (by tauto), if_neg (by tauto)]
    | obj nm em oid =>
      show (if t = "checkbox" then _ else _) = _
      rw [if_neg h1, if_neg (by tauto), if_neg h6, if_neg (by tauto), if_neg (by tauto)]

/-- Witness for C4: a numeric field with precision 2 maps to REAL, with
precision 0 to INTEGER, and a concrete boolean encodes to 1. -/
theorem claim_C4_witness :
    mapAirtableTypeToSQLite "number"
        (some { precision := some 2, linkedTableId := none }) = "REAL" ∧
    formatValueForSQLite (.boolean true) "checkbox" none = .num 1 :=
  ⟨(claim_C4.1 "number" (by decide) (some { precision := some 2, linkedTableId := none })).1.mpr
      ⟨{ precision := some 2, linkedTableId := none }, 2, rfl, rfl, by decide⟩,
    claim_C4.2.2.1 true none⟩

/-! ## Schema Planner — table plans and junction tables
(src/server.js lines 111-113, 240-291, 335-401) -/

/-- A source table of the base schema. -/
structure TableSchema where
  id : String
  name : String
  primaryFieldId : Option String := none
  fields : List AirtableField
deriving Repr

/-- Embedding of `generateJunctionTableName` (src/server.js lines 111-113). -/
def generateJunctionTableName (sourceTableSqliteName fieldSqliteName : String) : String :=
  "_link_" ++ sourceTableSqliteName ++ "_" ++ fieldSqliteName

/-- An entry of `junctionTablesToCreate` (src/server.js lines 285-290). -/
structure JunctionInfo where
  name : String
  sourceTableSqliteName : String
  fieldSqliteName : String
  linkedTableId : Option String
deriving Repr, DecidableEq

/-- The `junctionTablesToCreate` accumulator after the metadata transaction
(src/server.js lines 241, 280-291): one entry per relationship-typed
mapping, in table order then field order. -/
def junctionTablesToCreate (tablesSchema : List TableSchema) : List JunctionInfo :=
  tablesSchema.flatMap (fun ts =>
    ((getDeDuplicatedColumnMappings ts.fields ts.primaryFieldId "id").filter
        (fun m => m.airtableType = "multipleRecordLinks")).map
      (fun m =>
        { name := generateJunctionTableName (sanitizeColumnName ts.name) m.sqliteName,
          sourceTableSqliteName := sanitizeColumnName ts.name,
          fieldSqliteName := m.sqliteName,
          linkedTableId := m.airtableOptions.bind (fun o => o.linkedTableId) }))

/-- A column of a created table. -/
structure ColumnDef where
  name : String
  sqlType : String
  notNull : Bool := false
deriving Repr, DecidableEq

/-- A created table: columns and primary-key columns. -/
structure TableDef where
  columns : List ColumnDef
  primaryKey : List String
deriving Repr, DecidableEq

/-- A created index. -/
structure IndexDef where
  name : String
  table : String
  columns : List String
deriving Repr, DecidableEq

/-- The main data table for one source table (src/server.js lines 348-364):
`id TEXT PRIMARY KEY` plus one column per non-relationship mapping. -/
def mainTableDef (ts : TableSchema) : TableDef :=
  { columns := { name := "id", sqlType := "TEXT" } ::
      ((getDeDuplicatedColumnMappings ts.fields ts.primaryFieldId "id").filter
          (fun m => m.airtableType ≠ "multipleRecordLinks")).map
        (fun m => { name := m.sqliteName,
                    sqlType := mapAirtableTypeToSQLite m.airtableType m.airtableOptions }),
    primaryKey := ["id"] }

/-- The junction table definition (src/server.js lines 378-386): two
NOT NULL TEXT columns with a composite primary key. -/
def junctionTableDef : TableDef :=
  { columns := [{ name := "source_id", sqlType := "TEXT", notNull := true },
                { name := "target_id", sqlType := "TEXT", notNull := true }],
    primaryKey := ["source_id", "target_id"] }

/-- The `createdJunctionTables` set filter (src/server.js lines 374-376):
keep the first junction info for each name. -/
def dedupJunction : List JunctionInfo → List String → List JunctionInfo
  | [], _ => []
  | j :: rest, seen =>
    if j.name ∈ seen then dedupJunction rest seen
    else j :: dedupJunction rest (j.name :: seen)

def createdJunctionTables (tablesSchema : List TableSchema) : List JunctionInfo :=
  dedupJunction (junctionTablesToCreate tablesSchema) []

/-- Everything the table-creation transaction creates
(src/server.js lines 335-401). -/
structure SnapshotSchema where
  mainTables : List (String × TableDef)
  junctionTables : List (String × TableDef)
  indexes : List IndexDef
deriving Repr

def buildSnapshotSchema (tablesSchema : List TableSchema) : SnapshotSchema :=
  { mainTables := tablesSchema.map (fun ts => (sanitizeColumnName ts.name, mainTableDef ts)),
    junctionTables := (createdJunctionTables tablesSchema).map
      (fun j => (j.name, junctionTableDef)),
    indexes :=
      tablesSchema.map (fun ts =>
        { name := "idx_" ++ sanitizeColumnName ts.name ++ "_pk",
          table := sanitizeColumnName ts.name, columns := ["id"] }) ++
      (createdJunctionTables tablesSchema).flatMap (fun j =>
        [{ name := "idx_" ++ j.name ++ "_source", table := j.name,
           columns := ["source_id"] },
         { name := "idx_" ++ j.name ++ "_target", table := j.name,
           columns := ["target_id"] }]) }

theorem dedupJunction_nodup : ∀ (l : List JunctionInfo) (seen : List String),
    ((dedupJunction l seen).map JunctionInfo.name).Nodup ∧
    ∀ j ∈ dedupJunction l seen, j.name ∉ seen
  | [], _ => ⟨List.nodup_nil, by intro j hj; exact absurd hj (by simp [dedupJunction])⟩
  | j :: rest, seen => by
    obtain ⟨ih1, ih2⟩ := dedupJunction_nodup rest seen
    obtain ⟨ih1s, ih2s⟩ := dedupJunction_nodup rest (j.name :: seen)
    by_cases hj : j.name ∈ seen
    · constructor
      · show ((if j.name ∈ seen then dedupJunction rest seen else _).map
          JunctionInfo.name).Nodup
        rw [if_pos hj]; exact ih1
      · intro k hk
        rw [show dedupJunction (j :: rest) seen = dedupJunction rest seen from by
          rw [dedupJunction, if_pos hj]] at hk
        exact ih2 k hk
    · constructor
      · rw [show dedupJunction (j :: rest) seen =
          j :: dedupJunction rest (j.name :: seen) from by
            rw [dedupJunction, if_neg hj]]
        rw [List.map_cons, List.nodup_cons]
        constructor
        · intro hmem
          rw [List.mem_map] at hmem
          obtain ⟨k, hk, hkn⟩ := hmem
          exact ih2s k hk (by rw [hkn]; exact List.mem_cons_self _ _)
        · exact ih1s
      · intro k hk
        rw [show dedupJunction (j :: rest) seen =
          j :: dedupJunction rest (j.name :: seen) from by
            rw [dedupJunction, if_neg hj]] at hk
        rcases List.mem_cons.mp hk with he | ht
        · rw [he]; exact hj
        · exact fun hmem => ih2s k ht (List.mem_cons_of_mem _ hmem)

theorem dedupJunction_mem_names : ∀ (l : List JunctionInfo) (seen : List String)
    (nm : String), nm ∈ l.map JunctionInfo.name → nm ∉ seen →
    nm ∈ (dedupJunction l seen).map JunctionInfo.name
  | [], _, nm, h, _ => absurd h (by simp)
  | j :: rest, seen, nm, h, hns => by
    by_cases hj : j.name ∈ seen
    · rw [show dedupJunction (j :: rest) seen = dedupJunction rest seen from by
        rw [dedupJunction, if_pos hj]]
      rcases List.mem_cons.mp h with he | ht
      · exact absurd (he ▸ hj) hns
      · exact dedupJunction_mem_names rest seen nm ht hns
    · rw [show dedupJunction (j :: rest) seen =
        j :: dedupJunction rest (j.name :: seen) from by
          rw [dedupJunction, if_neg hj]]
      rcases List.mem_cons.mp h with he | ht
      · rw [List.map_cons]; rw [he]; exact List.mem_cons_self _ _
      · by_cases hnj : nm = j.name
        · rw [List.map_cons, hnj]; exact List.mem_cons_self _ _
        · rw [List.map_cons]
          exact List.mem_cons_of_mem _
            (dedupJunction_mem_names rest (j.name :: seen) nm ht
              (by rw [List.mem_cons]; push_neg; exact ⟨hnj, hns⟩))

theorem nodup_filter_name_length : ∀ (l : List JunctionInfo),
    (l.map JunctionInfo.name).Nodup → ∀ nm, nm ∈ l.map JunctionInfo.name →
    (l.filter (fun j => j.name = nm)).length = 1
  | [], _, nm, h => absurd h (by simp)
  | j :: rest, hnd, nm, h => by
    rw [List.map_cons, List.nodup_cons] at hnd
    by_cases hj : j.name = nm
    · rw [List.filter_cons, if_pos (by simpa using hj)]
      have hrest : rest.filter (fun k => k.name = nm) = [] := by
        rw [List.filter_eq_nil_iff]
        intro k hk hkn
        apply hnd.1
        have hkn2 : k.name = nm := by simpa using hkn
        rw [hj, ← hkn2]
        exact List.mem_map.mpr ⟨k, hk, rfl⟩
      rw [hrest]
      rfl
    · rw [List.filter_cons, if_neg (by simpa using hj)]
      rcases List.mem_cons.mp h with he | ht
      · exact absurd he.symm hj
      · exact nodup_filter_name_length rest hnd.2 nm ht

/-- C1: for every relationship field (type tag `multipleRecordLinks`), the
snapshot has no ordinary column for that field in its owning data table,
and exactly one join table named `_link_<table>_<field>` with the two
NOT NULL TEXT columns `source_id`/`target_id`, a composite primary key over
the pair, and one secondary index on each column. -/
theorem claim_C1 (tablesSchema : List TableSchema) (ts : TableSchema)
    (hts : ts ∈ tablesSchema) (m : ColumnMapping)
    (hm : m ∈ getDeDuplicatedColumnMappings ts.fields ts.primaryFieldId "id")
    (hlink : m.airtableType = "multipleRecordLinks") :
    ((sanitizeColumnName ts.name, mainTableDef ts) ∈
        (buildSnapshotSchema tablesSchema).mainTables ∧
      ∀ c ∈ (mainTableDef ts).columns, c.name ≠ m.sqliteName) ∧
    (((buildSnapshotSchema tablesSchema).junctionTables.filter
        (fun p => p.1 = generateJunctionTableName (sanitizeColumnName ts.name)
          m.sqliteName)).length = 1) ∧
    (∀ p ∈ (buildSnapshotSchema tablesSchema).junctionTables,
      p.2.columns = [{ name := "source_id", sqlType := "TEXT", notNull := true },
                     { name := "target_id", sqlType := "TEXT", notNull := true }] ∧
      p.2.primaryKey = ["source_id", "target_id"]) ∧
    ({ name := "idx_" ++ generateJunctionTableName (sanitizeColumnName ts.name)
          m.sqliteName ++ "_source",
       table := generateJunctionTableName (sanitizeColumnName ts.name) m.sqliteName,
       columns := ["source_id"] } : IndexDef) ∈
      (buildSnapshotSchema tablesSchema).indexes ∧
    ({ name := "idx_" ++ generateJunctionTableName (sanitizeColumnName ts.name)
          m.sqliteName ++ "_target",
       table := generateJunctionTableName (sanitizeColumnName ts.name) m.sqliteName,
       columns := ["target_id"] } : IndexDef) ∈
      (buildSnapshotSchema tablesSchema).indexes := by
  have hfresh := dedupGo_fresh_nodup ts.primaryFieldId "id" ts.fields [lowerStr "id"]
  have hmlow : lowerStr m.sqliteName ≠ "id" := by
    intro heq
    exact hfresh.2 m hm (by rw [heq, ← lower_id]; exact List.mem_singleton.mpr rfl)
  -- the junction info generated for (ts, m)
  have hj0 : JunctionInfo.mk
      (generateJunctionTableName (sanitizeColumnName ts.name) m.sqliteName)
      (sanitizeColumnName ts.name) m.sqliteName
      (m.airtableOptions.bind (fun o => o.linkedTableId)) ∈
      junctionTablesToCreate tablesSchema := by
    rw [junctionTablesToCreate]
    refine List.mem_flatMap.mpr ⟨ts, hts, ?_⟩
    exact List.mem_map.mpr ⟨m, List.mem_filter.mpr ⟨hm, by simp [hlink]⟩, rfl⟩
  have hjname : generateJunctionTableName (sanitizeColumnName ts.name) m.sqliteName ∈
      (createdJunctionTables tablesSchema).map JunctionInfo.name := by
    apply dedupJunction_mem_names
    · exact List.mem_map.mpr ⟨_, hj0, rfl⟩
    · exact List.not_mem_nil _
  refine ⟨⟨?_, ?_⟩, ?_, ?_, ?_, ?_⟩
  · exact List.mem_map.mpr ⟨ts, hts, rfl⟩
  · intro c hc
    rcases List.mem_cons.mp hc with he | hin
    · rw [he]
      intro heq
      apply hmlow
      rw [← heq, lower_id]
    · rw [List.mem_map] at hin
      obtain ⟨m2, hm2, hcm2⟩ := hin
      have hm2mem := (List.mem_filter.mp hm2).1
      have hm2type : m2.airtableType ≠ "multipleRecordLinks" := by
        have := (List.mem_filter.mp hm2).2
        simpa using this
      rw [← hcm2]
      intro heq
      have heq2 : m2.sqliteName = m.sqliteName := heq
      apply hm2type
      have hmm : m2 = m := by
        apply List.inj_on_of_nodup_map hfresh.1 hm2mem hm
        show lowerStr m2.sqliteName = lowerStr m.sqliteName
        rw [heq2]
      rw [hmm, hlink]
  · show (((createdJunctionTables tablesSchema).map
        (fun j => (j.name, junctionTableDef))).filter _).length = 1
    rw [List.filter_map]
    rw [List.length_map]
    exact nodup_filter_name_length _ (dedupJunction_nodup _ _).1 _ hjname
  · intro p hp
    rw [show (buildSnapshotSchema tablesSchema).junctionTables =
      (createdJunctionTables tablesSchema).map (fun j => (j.name, junctionTableDef))
      from rfl] at hp
    rw [List.mem_map] at hp
    obtain ⟨j, _, hpj⟩ := hp
    rw [← hpj]
    exact ⟨rfl, rfl⟩
  · obtain ⟨j, hj, hjn⟩ := List.mem_map.mp hjname
    apply List.mem_append_right
    refine List.mem_flatMap.mpr ⟨j, hj, ?_⟩
    rw [hjn]
    exact List.mem_cons_self _ _
  · obtain ⟨j, hj, hjn⟩ := List.mem_map.mp hjname
    apply List.mem_append_right
    refine List.mem_flatMap.mpr ⟨j, hj, ?_⟩
    rw [hjn]
    exact List.mem_cons_of_mem _ (List.mem_cons_self _ _)

/-- The one-table, one-link-field schema used by the C1 witness. -/
def tasksWitnessSchema : TableSchema :=
  { id := "tbl1", name := "Tasks", primaryFieldId := none,
    fields := [{ id := "fldL", name := "Projects", type := "multipleRecordLinks" }] }

/-- The column mapping produced for the witness link field. -/
def tasksWitnessMapping : ColumnMapping :=
  { airtableFieldId := "fldL", airtableName := "Projects",
    airtableType := "multipleRecordLinks", airtableOptions := none,
    airtableDescription := none, sqliteName := "Projects",
    isAirtablePrimaryField := false }

/-- Witness for C1: a `Tasks` table with one relationship field `Projects`
yields exactly one join table named by the derived name. -/
theorem claim_C1_witness :
    ((buildSnapshotSchema [tasksWitnessSchema]).junctionTables.filter
      (fun p => p.1 = generateJunctionTableName
        (sanitizeColumnName tasksWitnessSchema.name)
        tasksWitnessMapping.sqliteName)).length = 1 :=
  (claim_C1 [tasksWitnessSchema] tasksWitnessSchema (List.mem_singleton.mpr rfl)
    tasksWitnessMapping (by decide) rfl).2.1

/-! ## Snapshot Writer — the batch insert transaction
(src/server.js lines 440-519)

A fetched record is an id plus a field-name-keyed value map. The main-table
insert statement may throw (uniqueness violation on the `id` primary key,
unbindable values); the throw is abstracted by the `mainFails` oracle, and
the `try/catch` of src/server.js lines 483-491 is modeled by branching on
it. Junction inserts use `INSERT OR IGNORE` (line 394), modeled as
`junctionInsertOrIgnore`. -/

/-- A fetched source record. -/
structure RecordJS where
  id : String
  fields : List (String × JSValue)

/-- `record.fields[name]`. -/
def lookupField (r : RecordJS) (nm : String) : Option JSValue :=
  (r.fields.find? (fun p => p.1 = nm)).map Prod.snd

/-- One entry of `allMappingsForMainInsert` (src/server.js lines 442-454). -/
structure MainInsertMapping where
  airtableName : String
  sqliteName : String
  airtableType : String
  airtableOptions : Option FieldOptions
deriving Repr, DecidableEq

/-- `allMappingsForMainInsert`: the synthetic `id` mapping followed by the
non-relationship column mappings (src/server.js lines 442-454). -/
def allMappingsForMainInsert (mappings : List ColumnMapping) : List MainInsertMapping :=
  { airtableName := "id", sqliteName := "id", airtableType := "text",
    airtableOptions := none } ::
    (mappings.filter (fun f => f.airtableType ≠ "multipleRecordLinks")).map
      (fun f => { airtableName := f.airtableName, sqliteName := f.sqliteName,
                  airtableType := f.airtableType, airtableOptions := f.airtableOptions })

/-- A relationship field of the table being written
(src/server.js line 463 and the viewer config of lines 317-320). -/
structure LinkFieldInfo where
  airtableName : String
  junctionTable : String
deriving Repr, DecidableEq

def linkFieldsForTable (tbl : String) (mappings : List ColumnMapping) :
    List LinkFieldInfo :=
  (mappings.filter (fun f => f.airtableType = "multipleRecordLinks")).map
    (fun f => { airtableName := f.airtableName,
                junctionTable := generateJunctionTableName tbl f.sqliteName })

/-- The bound values for one record's main-table insert
(src/server.js lines 474-480). -/
def rowValues (mappings : List MainInsertMapping) (r : RecordJS) : List JSValue :=
  mappings.map (fun mp =>
    if mp.sqliteName = "id" then .str r.id
    else formatValueForSQLite ((lookupField r mp.airtableName).getD .null)
      mp.airtableType mp.airtableOptions)

/-- Mutable state of the insert transaction: table contents plus the four
counters of src/server.js lines 467-470. A junction row is
(junction table name, source_id, target_id). -/
structure InsertState where
  mainRows : List (List JSValue)
  junctionRows : List (String × String × String)
  successfulMainInserts : Nat
  failedMainInserts : Nat
  successfulJunctionInserts : Nat
  failedJunctionInserts : Nat

/-- `INSERT OR IGNORE INTO <junction> (source_id, target_id) VALUES (?, ?)`
(src/server.js line 394): a duplicate pair leaves the table unchanged and
raises no error. -/
def junctionInsertOrIgnore (st : InsertState) (tbl source target : String) :
    InsertState :=
  if (tbl, source, target) ∈ st.junctionRows then
    { st with successfulJunctionInserts := st.successfulJunctionInserts + 1 }
  else
    { st with junctionRows := st.junctionRows ++ [(tbl, source, target)],
              successfulJunctionInserts := st.successfulJunctionInserts + 1 }

/-- One `junctionStmt.run(record.id, linkedRecordId)` call
(src/server.js lines 500-512). A string target binds directly; a numeric
target is stored under the TEXT affinity of the column; any other value is
unbindable, so the statement throws, the catch sees a non-uniqueness error
and counts a junction failure. -/
def processLinkValue (st : InsertState) (tbl rid : String) : JSValue → InsertState
  | .str s => junctionInsertOrIgnore st tbl rid s
  | .num n => junctionInsertOrIgnore st tbl rid (intToStr n)
  | _ => { st with failedJunctionInserts := st.failedJunctionInserts + 1 }

/-- The body of the junction-table loop for one link field
(src/server.js lines 495-514): read the raw value; when it is an array,
insert one pair per element. -/
def linkStep (r : RecordJS) (acc : InsertState) (lf : LinkFieldInfo) : InsertState :=
  match lookupField r lf.airtableName with
  | some (JSValue.arr ids) =>
    ids.foldl (fun acc2 tv => processLinkValue acc2 lf.junctionTable r.id tv) acc
  | _ => acc

/-- The junction-table loop for one successfully inserted record
(src/server.js lines 494-515). -/
def linkFold (r : RecordJS) (linkFields : List LinkFieldInfo) (st : InsertState) :
    InsertState :=
  linkFields.foldl (linkStep r) st

/-- The per-record body of the insert transaction
(src/server.js lines 472-516). -/
def processRecord (mainFails : RecordJS → Bool) (mappings : List MainInsertMapping)
    (linkFields : List LinkFieldInfo) (st : InsertState) (r : RecordJS) : InsertState :=
  if mainFails r then
    { st with failedMainInserts := st.failedMainInserts + 1 }
  else
    linkFold r linkFields
      { st with mainRows := st.mainRows ++ [rowValues mappings r],
                successfulMainInserts := st.successfulMainInserts + 1 }

/-- Embedding of `insertTransaction` (src/server.js lines 466-519). -/
def insertTransaction (mainFails : RecordJS → Bool) (mappings : List MainInsertMapping)
    (linkFields : List LinkFieldInfo) (records : List RecordJS) (st : InsertState) :
    InsertState :=
  records.foldl (processRecord mainFails mappings linkFields) st

theorem junctionInsertOrIgnore_mainRows (st : InsertState) (tbl s t : String) :
    (junctionInsertOrIgnore st tbl s t).mainRows = st.mainRows := by
  rw [junctionInsertOrIgnore]; split <;> rfl

theorem junctionInsertOrIgnore_mono (st : InsertState) (tbl s t : String)
    (p : String × String × String) (hp : p ∈ st.junctionRows) :
    p ∈ (junctionInsertOrIgnore st tbl s t).junctionRows := by
  rw [junctionInsertOrIgnore]; split
  · exact hp
  · exact List.mem_append_left _ hp

theorem junctionInsertOrIgnore_self (st : InsertState) (tbl s t : String) :
    (tbl, s, t) ∈ (junctionInsertOrIgnore st tbl s t).junctionRows := by
  rw [junctionInsertOrIgnore]; split
  · assumption
  · exact List.mem_append_right _ (List.mem_singleton.mpr rfl)

theorem processLinkValue_mainRows (st : InsertState) (tbl rid : String) (tv : JSValue) :
    (processLinkValue st tbl rid tv).mainRows = st.mainRows := by
  cases tv <;> first
    | rfl
    | exact junctionInsertOrIgnore_mainRows ..

theorem processLinkValue_mono (st : InsertState) (tbl rid : String) (tv : JSValue)
    (p : String × String × String) (hp : p ∈ st.junctionRows) :
    p ∈ (processLinkValue st tbl rid tv).junctionRows := by
  cases tv <;> first
    | exact hp
    | exact junctionInsertOrIgnore_mono _ _ _ _ _ hp

theorem idsFold_mainRows (tbl rid : String) : ∀ (ids : List JSValue) (st : InsertState),
    (ids.foldl (fun acc2 tv => processLinkValue acc2 tbl rid tv) st).mainRows =
      st.mainRows
  | [], _ => rfl
  | tv :: rest, st => by
    rw [List.foldl_cons, idsFold_mainRows tbl rid rest, processLinkValue_mainRows]

theorem idsFold_mono (tbl rid : String) : ∀ (ids : List JSValue) (st : InsertState)
    (p : String × String × String), p ∈ st.junctionRows →
    p ∈ (ids.foldl (fun acc2 tv => processLinkValue acc2 tbl rid tv) st).junctionRows
  | [], _, _, hp => hp
  | tv :: rest, st, p, hp => by
    rw [List.foldl_cons]
    exact idsFold_mono tbl rid rest _ p (processLinkValue_mono _ _ _ _ p hp)

theorem idsFold_mem (tbl rid : String) : ∀ (ids : List JSValue) (st : InsertState)
    (s : String), JSValue.str s ∈ ids →
    (tbl, rid, s) ∈
      (ids.foldl (fun acc2 tv => processLinkValue acc2 tbl rid tv) st).junctionRows
  | [], _, _, hs => absurd hs (by simp)
  | tv :: rest, st, s, hs => by
    rw [List.foldl_cons]
    rcases List.mem_cons.mp hs with he | ht
    · apply idsFold_mono
      rw [← he]
      exact junctionInsertOrIgnore_self st tbl rid s
    · exact idsFold_mem tbl rid rest _ s ht

theorem linkStep_mainRows (r : RecordJS) (acc : InsertState) (lf : LinkFieldInfo) :
    (linkStep r acc lf).mainRows = acc.mainRows := by
  rw [linkStep]
  cases hlk : lookupField r lf.airtableName with
  | none => rfl
  | some v =>
    cases v with
    | arr ids => exact idsFold_mainRows _ _ ids acc
    | null => rfl
    | nan => rfl
    | boolean b => rfl
    | num n => rfl
    | str s2 => rfl
    | obj a b c => rfl

theorem linkStep_mono (r : RecordJS) (acc : InsertState) (lf : LinkFieldInfo)
    (p : String × String × String) (hp : p ∈ acc.junctionRows) :
    p ∈ (linkStep r acc lf).junctionRows := by
  rw [linkStep]
  cases hlk : lookupField r lf.airtableName with
  | none => exact hp
  | some v =>
    cases v with
    | arr ids => exact idsFold_mono _ _ ids acc p hp
    | null => exact hp
    | nan => exact hp
    | boolean b => exact hp
    | num n => exact hp
    | str s2 => exact hp
    | obj a b c => exact hp

theorem linkFold_mainRows (r : RecordJS) : ∀ (linkFields : List LinkFieldInfo)
    (st : InsertState), (linkFold r linkFields st).mainRows = st.mainRows
  | [], _ => rfl
  | lf :: rest, st => by
    show (linkFold r rest (linkStep r st lf)).mainRows = st.mainRows
    rw [linkFold_mainRows r rest, linkStep_mainRows]

theorem linkFold_mono (r : RecordJS) : ∀ (linkFields : List LinkFieldInfo)
    (st : InsertState) (p : String × String × String), p ∈ st.junctionRows →
    p ∈ (linkFold r linkFields st).junctionRows
  | [], _, _, hp => hp
  | lf :: rest, st, p, hp => by
    show p ∈ (linkFold r rest (linkStep r st lf)).junctionRows
    exact linkFold_mono r rest _ p (linkStep_mono r st lf p hp)

theorem linkFold_mem (r : RecordJS) : ∀ (linkFields : List LinkFieldInfo)
    (st : InsertState) (lf : LinkFieldInfo) (ids : List JSValue) (s : String),
    lf ∈ linkFields → lookupField r lf.airtableName = some (JSValue.arr ids) →
    JSValue.str s ∈ ids →
    (lf.junctionTable, r.id, s) ∈ (linkFold r linkFields st).junctionRows
  | [], _, _, _, _, hmem, _, _ => absurd hmem (by simp)
  | lf0 :: rest, st, lf, ids, s, hmem, hlk, hs => by
    show (lf.junctionTable, r.id, s) ∈ (linkFold r rest (linkStep r st lf0)).junctionRows
    rcases List.mem_cons.mp hmem with he | ht
    · apply linkFold_mono
      rw [he] at hlk ⊢
      rw [linkStep, hlk]
      exact idsFold_mem _ _ ids st s hs
    · exact linkFold_mem r rest _ lf ids s ht hlk hs

/-- C5: in a batch insert, a record whose main-table insert fails is caught
and counted, leaves the main table and every junction table untouched (no
join row for that record), and the remaining records of the batch are still
processed; a record whose main insert succeeds contributes its row and one
`(source_id, target_id)` join row per string target in each relationship
field's array value; and an exact duplicate join pair is ignored silently
(state unchanged, no error counted). -/
theorem claim_C5 (mainFails : RecordJS → Bool) (mappings : List MainInsertMapping)
    (linkFields : List LinkFieldInfo) :
    (∀ st r, mainFails r = true →
      processRecord mainFails mappings linkFields st r =
        { st with failedMainInserts := st.failedMainInserts + 1 }) ∧
    (∀ rs1 rs2 (r : RecordJS) st, mainFails r = true →
      insertTransaction mainFails mappings linkFields (rs1 ++ r :: rs2) st =
        insertTransaction mainFails mappings linkFields rs2
          { insertTransaction mainFails mappings linkFields rs1 st with
            failedMainInserts :=
              (insertTransaction mainFails mappings linkFields rs1 st).failedMainInserts
                + 1 }) ∧
    (∀ st r, mainFails r = false →
      (processRecord mainFails mappings linkFields st r).mainRows =
        st.mainRows ++ [rowValues mappings r] ∧
      (∀ lf ids s, lf ∈ linkFields →
        lookupField r lf.airtableName = some (JSValue.arr ids) →
        JSValue.str s ∈ ids →
        (lf.junctionTable, r.id, s) ∈
          (processRecord mainFails mappings linkFields st r).junctionRows)) ∧
    (∀ st tbl src tgt, (tbl, src, tgt) ∈ st.junctionRows →
      junctionInsertOrIgnore st tbl src tgt =
        { st with successfulJunctionInserts := st.successfulJunctionInserts + 1 }) := by
  have hstep : ∀ st r, mainFails r = true →
      processRecord mainFails mappings linkFields st r =
        { st with failedMainInserts := st.failedMainInserts + 1 } := by
    intro st r h
    rw [processRecord, if_pos h]
  refine ⟨hstep, ?_, ?_, ?_⟩
  · intro rs1 rs2 r st h
    show List.foldl _ st (rs1 ++ r :: rs2) = _
    rw [List.foldl_append, List.foldl_cons, hstep _ r h]
    rfl
  · intro st r h
    have hbody : processRecord mainFails mappings linkFields st r =
        linkFold r linkFields
          { st with mainRows := st.mainRows ++ [rowValues mappings r],
                    successfulMainInserts := st.successfulMainInserts + 1 } := by
      rw [processRecord, h]
      rw [if_neg (by simp)]
    constructor
    · rw [hbody, linkFold_mainRows]
    · intro lf ids s hlf hlk hs
      rw [hbody]
      exact linkFold_mem r linkFields _ lf ids s hlf hlk hs
  · intro st tbl src tgt hp
    rw [junctionInsertOrIgnore, if_pos hp]

/-- Empty initial state of an insert transaction (all counters zero). -/
def insertState0 : InsertState :=
  { mainRows := [], junctionRows := [], successfulMainInserts := 0,
    failedMainInserts := 0, successfulJunctionInserts := 0,
    failedJunctionInserts := 0 }

/-- Witness for C5: a record whose main insert fails only bumps the failure
counter. -/
theorem claim_C5_witness :
    processRecord (fun r => r.id == "recBad") [] [] insertState0
        { id := "recBad", fields := [] } =
      { insertState0 with
        failedMainInserts := insertState0.failedMainInserts + 1 } :=
  (claim_C5 (fun r => r.id == "recBad") [] []).1 insertState0
    { id := "recBad", fields := [] } (by decide)

/-! ## Paginated Fetcher and run model (src/server.js lines 403-569)

`fetchPages` embeds the do/while pagination loop of lines 416-437: request
at the current offset; on success append the records and continue while a
non-empty offset is returned; on a request failure stop for this table,
keeping the pages already retrieved (the `catch` of lines 430-436). The JS
loop is driven by the API's offsets; the embedding takes fuel, and every
statement quantifies over (sufficient) fuel. -/

/-- One page response of the records API. -/
inductive FetchResult where
  | ok (records : List RecordJS) (offset : Option String)
  | err (message : String)

def fetchPages (api : Option String → FetchResult) :
    Nat → Option String → List RecordJS → List RecordJS × Bool
  | 0, _, acc => (acc, false)
  | fuel + 1, off, acc =>
    match api off with
    | .err _ => (acc, true)
    | .ok recs none => (acc ++ recs, false)
    | .ok recs (some o) =>
      if o = "" then (acc ++ recs, false)
      else fetchPages api fuel (some o) (acc ++ recs)

/-- The insert state a table ends with: its records fetched (possibly
truncated by a mid-pagination failure), then batch-inserted
(src/server.js lines 414-522). -/
def tableInsertState (api : Option String → FetchResult) (fuel : Nat)
    (mainFails : RecordJS → Bool) (ts : TableSchema) : InsertState :=
  insertTransaction mainFails
    (allMappingsForMainInsert (getDeDuplicatedColumnMappings ts.fields ts.primaryFieldId "id"))
    (linkFieldsForTable (sanitizeColumnName ts.name)
      (getDeDuplicatedColumnMappings ts.fields ts.primaryFieldId "id"))
    (fetchPages api fuel none []).1 insertState0

/-- The data stored in one table of the produced file: its rows. The
success/failure counters are NOT part of the file. -/
structure TableContent where
  mainRows : List (List JSValue)
  junctionRows : List (String × String × String)

/-- The produced SQLite file: created structure plus per-table contents. -/
structure DBArtifact where
  schema : SnapshotSchema
  tableStates : List (String × TableContent)

/-- What the HTTP caller receives (src/server.js lines 544-558): either the
file bytes, or a JSON error object with a message. Nothing else is sent. -/
inductive HandlerResponse where
  | file (artifact : DBArtifact)
  | jsonError (statusCode : Nat) (message : String)

def snapshotArtifact (tablesSchema : List TableSchema)
    (api : String → Option String → FetchResult) (fuel : Nat)
    (mainFails : RecordJS → Bool) : DBArtifact :=
  { schema := buildSnapshotSchema tablesSchema,
    tableStates := tablesSchema.map (fun ts =>
      (sanitizeColumnName ts.name,
       { mainRows := (tableInsertState (api ts.id) fuel mainFails ts).mainRows,
         junctionRows :=
           (tableInsertState (api ts.id) fuel mainFails ts).junctionRows })) }

/-- The response of a run whose fatal-path steps all succeed
(src/server.js lines 540-548): the file, nothing else. -/
def snapshotResponse (tablesSchema : List TableSchema)
    (api : String → Option String → FetchResult) (fuel : Nat)
    (mainFails : RecordJS → Bool) : HandlerResponse :=
  .file (snapshotArtifact tablesSchema api fuel mainFails)

/-- The full handler outcome including the fatal path
(src/server.js lines 550-558): a thrown error before the send yields a 500
JSON body with a message and no artifact. -/
def generateSnapshotResponse (schemaFetchOk : Bool) (errMessage : String)
    (tablesSchema : List TableSchema) (api : String → Option String → FetchResult)
    (fuel : Nat) (mainFails : RecordJS → Bool) : HandlerResponse :=
  if schemaFetchOk then snapshotResponse tablesSchema api fuel mainFails
  else .jsonError 500 errMessage

/-- The per-table insert-stats console line (src/server.js line 523). -/
def statsLogLine (api : Option String → FetchResult) (fuel : Nat)
    (mainFails : RecordJS → Bool) (ts : TableSchema) : String :=
  "[LOG] Main Table Inserts: " ++
    natToStr (tableInsertState api fuel mainFails ts).successfulMainInserts ++
    " successful, " ++
    natToStr (tableInsertState api fuel mainFails ts).failedMainInserts ++ " failed."

/-- The server console log of a run: a fetch-error line for each degraded
table (src/server.js line 431) and the insert-stats line for every table
(line 523). The log is printed on the server, not sent to the caller. -/
def runLog (tablesSchema : List TableSchema)
    (api : String → Option String → FetchResult) (fuel : Nat)
    (mainFails : RecordJS → Bool) : List String :=
  tablesSchema.flatMap (fun ts =>
    (if (fetchPages (api ts.id) fuel none []).2 then
      ["[ERROR] Failed to fetch records for table " ++ ts.id] else []) ++
    [statsLogLine (api ts.id) fuel mainFails ts])

/-! ## Claim C6 — mid-pagination failure -/

def tblAlpha : TableSchema :=
  { id := "tblA", name := "Alpha", primaryFieldId := none, fields := [] }

def tblBeta : TableSchema :=
  { id := "tblB", name := "Beta", primaryFieldId := none, fields := [] }

/-- API family for the degraded scenario: table A's first page succeeds with
a continuation offset, its second page request fails; table B succeeds. -/
def apiDegraded (tid : String) (off : Option String) : FetchResult :=
  if tid = "tblA" then
    (match off with
     | none => .ok [{ id := "recA1", fields := [] }] (some "page2")
     | some _ => .err "boom")
  else .ok [{ id := "recB1", fields := [] }] none

/-- API family returning, without any failure, exactly the records the
degraded run retrieves. -/
def apiCleanTrunc (tid : String) (off : Option String) : FetchResult :=
  if tid = "tblA" then .ok [{ id := "recA1", fields := [] }] none
  else .ok [{ id := "recB1", fields := [] }] none

/-- C6 counterexample: in the concrete degraded run, table A's fetch is
degraded (page 2 failed), yet the caller's response is identical to that of
a clean run over the truncated data — no partial-result warning reaches the
caller; the failure appears only in the server console log. -/
theorem claim_C6_counterexample :
    (fetchPages (apiDegraded "tblA") 3 none []).2 = true ∧
    snapshotResponse [tblAlpha, tblBeta] apiDegraded 3 (fun _ => false) =
      snapshotResponse [tblAlpha, tblBeta] apiCleanTrunc 3 (fun _ => false) ∧
    ("[ERROR] Failed to fetch records for table tblA" ∈
      runLog [tblAlpha, tblBeta] apiDegraded 3 (fun _ => false)) ∧
    ("[ERROR] Failed to fetch records for table tblA" ∉
      runLog [tblAlpha, tblBeta] apiCleanTrunc 3 (fun _ => false)) := by
  refine ⟨rfl, rfl, ?_, ?_⟩
  · show _ ∈ runLog [tblAlpha, tblBeta] apiDegraded 3 (fun _ => false)
    rw [show runLog [tblAlpha, tblBeta] apiDegraded 3 (fun _ => false) =
      ["[ERROR] Failed to fetch records for table tblA",
       statsLogLine (apiDegraded "tblA") 3 (fun _ => false) tblAlpha,
       statsLogLine (apiDegraded "tblB") 3 (fun _ => false) tblBeta] from rfl]
    exact List.mem_cons_self _ _
  · intro hmem
    rw [show runLog [tblAlpha, tblBeta] apiCleanTrunc 3 (fun _ => false) =
      [statsLogLine (apiCleanTrunc "tblA") 3 (fun _ => false) tblAlpha,
       statsLogLine (apiCleanTrunc "tblB") 3 (fun _ => false) tblBeta] from rfl] at hmem
    rcases List.mem_cons.mp hmem with he | ht
    · exact absurd he (by decide)
    · rcases List.mem_cons.mp ht with he2 | ht2
      · exact absurd he2 (by decide)
      · exact absurd ht2 (by simp)

/-- C6 (amended): when a page request fails after earlier pages succeeded,
fetching for that table stops and the previously retrieved pages are kept
and written; every other table is fetched and written independently; the
failure is recorded in the server console log — but it is not reported to
the caller: the response of a run is entirely determined by the fetched
records, so a degraded run is indistinguishable to the caller from a clean
run over the truncated data. -/
theorem claim_C6_amended :
    (∀ (api : Option String → FetchResult) recs1 o msg fuel,
      api none = .ok recs1 (some o) → o ≠ "" → api (some o) = .err msg →
      fetchPages api (fuel + 2) none [] = (recs1, true)) ∧
    (∀ tablesSchema (api : String → Option String → FetchResult) fuel mainFails ts,
      ts ∈ tablesSchema →
      (sanitizeColumnName ts.name,
        ({ mainRows := (tableInsertState (api ts.id) fuel mainFails ts).mainRows,
           junctionRows :=
             (tableInsertState (api ts.id) fuel mainFails ts).junctionRows }
          : TableContent)) ∈
        (snapshotArtifact tablesSchema api fuel mainFails).tableStates) ∧
    (∀ (api1 api2 : String → Option String → FetchResult) fuel mainFails ts badId,
      (∀ tid, tid ≠ badId → api1 tid = api2 tid) → ts.id ≠ badId →
      tableInsertState (api1 ts.id) fuel mainFails ts =
        tableInsertState (api2 ts.id) fuel mainFails ts) ∧
    (∀ tablesSchema api fuel mainFails ts, ts ∈ tablesSchema →
      (fetchPages (api ts.id) fuel none []).2 = true →
      ("[ERROR] Failed to fetch records for table " ++ ts.id) ∈
        runLog tablesSchema api fuel mainFails) ∧
    (∀ tablesSchema (api1 api2 : String → Option String → FetchResult) fuel mainFails,
      (∀ tid, (fetchPages (api1 tid) fuel none []).1 =
        (fetchPages (api2 tid) fuel none []).1) →
      snapshotResponse tablesSchema api1 fuel mainFails =
        snapshotResponse tablesSchema api2 fuel mainFails) := by
  refine ⟨?_, ?_, ?_, ?_, ?_⟩
  · intro api recs1 o msg fuel h1 ho h2
    show (match api none with
      | .err _ => (([] : List RecordJS), true)
      | .ok recs none => ([] ++ recs, false)
      | .ok recs (some o2) =>
        if o2 = "" then ([] ++ recs, false)
        else fetchPages api (fuel + 1) (some o2) ([] ++ recs)) = (recs1, true)
    rw [h1]
    show (if o = "" then ([] ++ recs1, false)
      else fetchPages api (fuel + 1) (some o) ([] ++ recs1)) = (recs1, true)
    rw [if_neg ho]
    show (match api (some o) with
      | .err _ => ([] ++ recs1, true)
      | .ok recs none => ([] ++ recs1 ++ recs, false)
      | .ok recs (some o2) =>
        if o2 = "" then ([] ++ recs1 ++ recs, false)
        else fetchPages api fuel (some o2) ([] ++ recs1 ++ recs)) = (recs1, true)
    rw [h2]
    rfl
  · intro tablesSchema api fuel mainFails ts hts
    exact List.mem_map.mpr ⟨ts, hts, rfl⟩
  · intro api1 api2 fuel mainFails ts badId hagree hne
    rw [hagree ts.id hne]
  · intro tablesSchema api fuel mainFails ts hts hdeg
    rw [runLog]
    refine List.mem_flatMap.mpr ⟨ts, hts, ?_⟩
    apply List.mem_append_left
    rw [if_pos hdeg]
    exact List.mem_singleton.mpr rfl
  · intro tablesSchema api1 api2 fuel mainFails h
    show HandlerResponse.file _ = HandlerResponse.file _
    congr 1
    rw [snapshotArtifact, snapshotArtifact]
    congr 1
    apply List.map_congr_left
    intro ts _
    rw [tableInsertState, tableInsertState, h ts.id]

/-- Witness for the amended C6 at the concrete degraded API: the fetch
stops after page 1 with the page-1 records kept. -/
theorem claim_C6_amended_witness :
    fetchPages (apiDegraded "tblA") 2 none [] =
      ([{ id := "recA1", fields := [] }], true) :=
  claim_C6_amended.1 (apiDegraded "tblA") [{ id := "recA1", fields := [] }]
    "page2" "boom" 0 rfl (by decide) rfl

/-! ## Claim C7 — what the caller receives -/

def tblGamma : TableSchema :=
  { id := "tblC", name := "Gamma", primaryFieldId := none, fields := [] }

def apiGamma (_tid : String) (_off : Option String) : FetchResult :=
  .ok [{ id := "recGood", fields := [] }, { id := "recBad", fields := [] }] none

def apiGammaClean (_tid : String) (_off : Option String) : FetchResult :=
  .ok [{ id := "recGood", fields := [] }] none

/-- C7 counterexample: a concrete run in which one row is skipped (the
insert-failure counter is 1) returns the bare artifact: the response equals
that of a clean run that never saw the skipped row, so no skipped-row or
skipped-table count accompanies the artifact — a silent partial success. -/
theorem claim_C7_counterexample :
    (tableInsertState (apiGamma "tblC") 2 (fun r => r.id == "recBad")
      tblGamma).failedMainInserts = 1 ∧
    snapshotResponse [tblGamma] apiGamma 2 (fun r => r.id == "recBad") =
      snapshotResponse [tblGamma] apiGammaClean 2 (fun _ => false) ∧
    snapshotResponse [tblGamma] apiGamma 2 (fun r => r.id == "recBad") =
      .file (snapshotArtifact [tblGamma] apiGamma 2 (fun r => r.id == "recBad")) :=
  ⟨rfl, rfl, rfl⟩

/-- C7 (amended): the caller receives either a complete failure carrying a
descriptive message and no artifact, or the artifact alone; the counts of
skipped rows and degraded tables are only written to the server console
log, never returned to the caller — the response is fully determined by the
stored rows, so runs that differ only in skip counters are
indistinguishable to the caller. -/
theorem claim_C7_amended :
    (∀ (ok : Bool) msg tablesSchema api fuel mainFails, ok = false →
      generateSnapshotResponse ok msg tablesSchema api fuel mainFails =
        .jsonError 500 msg) ∧
    (∀ (ok : Bool) msg tablesSchema api fuel mainFails, ok = true →
      generateSnapshotResponse ok msg tablesSchema api fuel mainFails =
        .file (snapshotArtifact tablesSchema api fuel mainFails)) ∧
    (∀ tablesSchema api fuel mainFails ts, ts ∈ tablesSchema →
      statsLogLine (api ts.id) fuel mainFails ts ∈
        runLog tablesSchema api fuel mainFails) ∧
    (∀ tablesSchema (api : String → Option String → FetchResult) fuel mf1 mf2,
      (∀ ts ∈ tablesSchema,
        (tableInsertState (api ts.id) fuel mf1 ts).mainRows =
          (tableInsertState (api ts.id) fuel mf2 ts).mainRows ∧
        (tableInsertState (api ts.id) fuel mf1 ts).junctionRows =
          (tableInsertState (api ts.id) fuel mf2 ts).junctionRows) →
      snapshotResponse tablesSchema api fuel mf1 =
        snapshotResponse tablesSchema api fuel mf2) := by
  refine ⟨?_, ?_, ?_, ?_⟩
  · intro ok msg tablesSchema api fuel mainFails hok
    rw [generateSnapshotResponse, hok]
    rw [if_neg (by simp)]
  · intro ok msg tablesSchema api fuel mainFails hok
    rw [generateSnapshotResponse, hok, if_pos rfl]
    rfl
  · intro tablesSchema api fuel mainFails ts hts
    rw [runLog]
    refine List.mem_flatMap.mpr ⟨ts, hts, ?_⟩
    apply List.mem_append_right
    exact List.mem_singleton.mpr rfl
  · intro tablesSchema api fuel mf1 mf2 h
    show HandlerResponse.file _ = HandlerResponse.file _
    congr 1
    rw [snapshotArtifact, snapshotArtifact]
    congr 1
    apply List.map_congr_left
    intro ts hts
    rw [(h ts hts).1, (h ts hts).2]

/-- Witness for the amended C7: a fatal run returns the 500 JSON error with
its message and no artifact. -/
theorem claim_C7_amended_witness :
    generateSnapshotResponse false "Error generating Airtable snapshot."
        [tblGamma] apiGamma 2 (fun _ => false) =
      .jsonError 500 "Error generating Airtable snapshot." :=
  claim_C7_amended.1 false "Error generating Airtable snapshot."
    [tblGamma] apiGamma 2 (fun _ => false) rfl

/-! ## Claim C8 — rate-limit delay before every request

The trace of the engine's interaction with the source API during snapshot
generation: the schema fetch is preceded by an awaited
`setTimeout(AIRTABLE_RATE_LIMIT_DELAY)` (src/server.js line 155), and every
iteration of every table's pagination loop awaits the same delay before its
request (lines 420-423). -/

inductive TraceEvent where
  | delay
  | request (url : String) (off : Option String)
deriving Repr, DecidableEq

/-- Trace of the pagination loop for one table (src/server.js lines
418-437): each iteration emits the awaited delay then the page request. -/
def pageTrace (api : Option String → FetchResult) (tableId : String) :
    Nat → Option String → List TraceEvent
  | 0, _ => []
  | fuel + 1, off =>
    .delay :: .request tableId off ::
      (match api off with
       | .err _ => []
       | .ok _ none => []
       | .ok _ (some o) => if o = "" then [] else pageTrace api tableId fuel (some o))

/-- Trace of a whole run (src/server.js lines 155-159, then 404-437). -/
def runTrace (tablesSchema : List TableSchema)
    (api : String → Option String → FetchResult) (fuel : Nat) : List TraceEvent :=
  .delay :: .request "schema" none ::
    tablesSchema.flatMap (fun ts => pageTrace (api ts.id) ts.id fuel none)

/-- Every request event of the trace is immediately preceded by a delay
event (in particular no request is first). -/
def Paired (l : List TraceEvent) : Prop :=
  ∀ i url off, l[i]? = some (.request url off) →
    i ≠ 0 ∧ l[i - 1]? = some .delay

theorem paired_nil : Paired [] := by
  intro i url off h
  exact absurd h (by simp)

theorem paired_append (a b : List TraceEvent) (ha : Paired a) (hb : Paired b)
    (hhead : b = [] ∨ b[0]? = some TraceEvent.delay) : Paired (a ++ b) := by
  intro i url off h
  by_cases hi : i < a.length
  · have h2 : a[i]? = some (.request url off) := by
      rw [List.getElem?_append_left hi] at h; exact h
    obtain ⟨hne, hprev⟩ := ha i url off h2
    refine ⟨hne, ?_⟩
    have hi1 : i - 1 < a.length := by omega
    rw [List.getElem?_append_left hi1]
    exact hprev
  · push_neg at hi
    have h2 : b[i - a.length]? = some (.request url off) := by
      rw [List.getElem?_append_right hi] at h; exact h
    by_cases hz : i - a.length = 0
    · rw [hz] at h2
      rcases hhead with hb0 | hb0
      · rw [hb0] at h2; exact absurd h2 (by simp)
      · rw [hb0] at h2; exact absurd h2 (by simp)
    · obtain ⟨_, hprev⟩ := hb (i - a.length) url off h2
      refine ⟨by omega, ?_⟩
      have hle : a.length ≤ i - 1 := by omega
      rw [List.getElem?_append_right hle,
        show i - 1 - a.length = (i - a.length) - 1 by omega]
      exact hprev

theorem paired_two (url : String) (off : Option String) :
    Paired [TraceEvent.delay, TraceEvent.request url off] := by
  intro i u o h
  match i with
  | 0 => exact absurd h (by simp)
  | 1 => exact ⟨by omega, rfl⟩
  | n + 2 => exact absurd h (by simp)

theorem paired_cons2 (url : String) (off : Option String) (l : List TraceEvent)
    (hl : Paired l) (hhead : l = [] ∨ l[0]? = some TraceEvent.delay) :
    Paired (.delay :: .request url off :: l) :=
  paired_append [TraceEvent.delay, TraceEvent.request url off] l
    (paired_two url off) hl hhead

theorem pageTrace_head (api : Option String → FetchResult) (tableId : String) :
    ∀ (fuel : Nat) (off : Option String),
    pageTrace api tableId fuel off = [] ∨
      (pageTrace api tableId fuel off)[0]? = some TraceEvent.delay
  | 0, _ => Or.inl rfl
  | _ + 1, _ => Or.inr rfl

theorem pageTrace_paired (api : Option String → FetchResult) (tableId : String) :
    ∀ (fuel : Nat) (off : Option String), Paired (pageTrace api tableId fuel off)
  | 0, _ => paired_nil
  | fuel + 1, off => by
    show Paired (.delay :: .request tableId off :: _)
    apply paired_cons2
    · cases hres : api off with
      | err m => exact paired_nil
      | ok recs o2 =>
        cases o2 with
        | none => exact paired_nil
        | some o =>
          show Paired (if o = "" then [] else pageTrace api tableId fuel (some o))
          by_cases ho : o = ""
          · rw [if_pos ho]; exact paired_nil
          · rw [if_neg ho]; exact pageTrace_paired api tableId fuel (some o)
    · cases hres : api off with
      | err m => exact Or.inl rfl
      | ok recs o2 =>
        cases o2 with
        | none => exact Or.inl rfl
        | some o =>
          show (if o = "" then [] else pageTrace api tableId fuel (some o)) = [] ∨
            (if o = "" then [] else pageTrace api tableId fuel (some o))[0]? =
              some TraceEvent.delay
          by_cases ho : o = ""
          · rw [if_pos ho]; exact Or.inl rfl
          · rw [if_neg ho]; exact pageTrace_head api tableId fuel (some o)

theorem flatMap_pageTrace_paired (api : String → Option String → FetchResult)
    (fuel : Nat) : ∀ (tablesSchema : List TableSchema),
    Paired (tablesSchema.flatMap (fun ts => pageTrace (api ts.id) ts.id fuel none)) ∧
    (tablesSchema.flatMap (fun ts => pageTrace (api ts.id) ts.id fuel none) = [] ∨
      (tablesSchema.flatMap
        (fun ts => pageTrace (api ts.id) ts.id fuel none))[0]? =
        some TraceEvent.delay)
  | [] => ⟨paired_nil, Or.inl rfl⟩
  | ts :: rest => by
    obtain ⟨ihp, ihh⟩ := flatMap_pageTrace_paired api fuel rest
    rw [List.flatMap_cons]
    constructor
    · exact paired_append _ _ (pageTrace_paired (api ts.id) ts.id fuel none) ihp ihh
    · cases hpt : pageTrace (api ts.id) ts.id fuel none with
      | nil =>
        rw [List.nil_append]
        exact ihh
      | cons e es =>
        rcases pageTrace_head (api ts.id) ts.id fuel none with hnil | hh
        · rw [hpt] at hnil; exact absurd hnil (by simp)
        · rw [hpt] at hh
          refine Or.inr ?_
          rw [List.cons_append]
          simpa using hh

/-- C8: in the request trace of a snapshot run — the schema request and
every page request of every table's pagination — each request event is
immediately preceded by the awaited fixed delay; no request, the very first
included, is issued without it. -/
theorem claim_C8 (tablesSchema : List TableSchema)
    (api : String → Option String → FetchResult) (fuel : Nat) :
    Paired (runTrace tablesSchema api fuel) := by
  rw [runTrace]
  apply paired_cons2
  · exact (flatMap_pageTrace_paired api fuel tablesSchema).1
  · exact (flatMap_pageTrace_paired api fuel tablesSchema).2

/-- Witness for C8 at a concrete one-table run: the event before the schema
request (index 1) is the delay. -/
theorem claim_C8_witness :
    (1 : Nat) ≠ 0 ∧
    (runTrace [{ id := "t1", name := "T", primaryFieldId := none, fields := [] }]
      (fun _ _ => FetchResult.err "down") 1)[0]? = some TraceEvent.delay :=
  claim_C8 [{ id := "t1", name := "T", primaryFieldId := none, fields := [] }]
    (fun _ _ => FetchResult.err "down") 1 1 "schema" none rfl

/-! ## Claim C9 — table-name collisions across source tables -/

/-- `CREATE TABLE IF NOT EXISTS "<name>" (...)` (src/server.js line 348)
executed against the set of already-created tables: when a table of the
name already exists the statement is a silent no-op; it never raises a
name-conflict error. A plain `CREATE TABLE` would return `.error`. -/
def createTableIfNotExists (dbTables : List (String × TableDef))
    (nm : String) (td : TableDef) : Except String (List (String × TableDef)) :=
  if nm ∈ dbTables.map Prod.fst then .ok dbTables
  else .ok (dbTables ++ [(nm, td)])

/-- The main-table creation loop (src/server.js lines 337-370), threading
the database state. -/
def createMainTables :
    List TableSchema → List (String × TableDef) →
      Except String (List (String × TableDef))
  | [], db => .ok db
  | ts :: rest, db =>
    match createTableIfNotExists db (sanitizeColumnName ts.name) (mainTableDef ts) with
    | .ok db2 => createMainTables rest db2
    | .error e => .error e

def tblColl1 : TableSchema :=
  { id := "tbl1", name := "Alpha!", primaryFieldId := none, fields := [] }

def tblColl2 : TableSchema :=
  { id := "tbl2", name := "Alpha?", primaryFieldId := none, fields := [] }

/-- C9 counterexample: two distinctly-named source tables `Alpha!` and
`Alpha?` sanitize to the same storage name `Alpha`; creation completes
without any error and leaves a single table bearing the first table's
definition — the writer does not surface a table-creation conflict. -/
theorem claim_C9_counterexample :
    sanitizeColumnName "Alpha!" = sanitizeColumnName "Alpha?" ∧
    tblColl1.name ≠ tblColl2.name ∧
    createMainTables [tblColl1, tblColl2] [] =
      .ok [("Alpha", mainTableDef tblColl1)] :=
  ⟨by decide, by decide, rfl⟩

/-- C9 (amended): table names are not deduplicated by the planner (the
storage table names are exactly the sanitized source names, collisions
included), and the Snapshot Writer does not surface the collision: creation
with `CREATE TABLE IF NOT EXISTS` never errors, and when two source tables
sanitize identically the second creation is a silent no-op, leaving the
single first-created table's schema (so data of both tables is merged into
it rather than an error being raised at creation). -/
theorem claim_C9_amended :
    (∀ tablesSchema : List TableSchema,
      (buildSnapshotSchema tablesSchema).mainTables.map Prod.fst =
        tablesSchema.map (fun ts => sanitizeColumnName ts.name)) ∧
    (∀ (tablesSchema : List TableSchema) (db : List (String × TableDef)),
      ∃ db2, createMainTables tablesSchema db = .ok db2) ∧
    (∀ ts1 ts2 : TableSchema,
      sanitizeColumnName ts1.name = sanitizeColumnName ts2.name →
      createMainTables [ts1, ts2] [] =
        .ok [(sanitizeColumnName ts1.name, mainTableDef ts1)]) := by
  refine ⟨?_, ?_, ?_⟩
  · intro tablesSchema
    show (tablesSchema.map (fun ts => (sanitizeColumnName ts.name, mainTableDef ts))).map
        Prod.fst = _
    rw [List.map_map]
    rfl
  · intro tablesSchema
    induction tablesSchema with
    | nil => intro db; exact ⟨db, rfl⟩
    | cons ts rest ih =>
      intro db
      have hstep : createMainTables (ts :: rest) db =
          createMainTables rest
            (if sanitizeColumnName ts.name ∈ db.map Prod.fst then db
             else db ++ [(sanitizeColumnName ts.name, mainTableDef ts)]) := by
        show (match createTableIfNotExists db (sanitizeColumnName ts.name)
            (mainTableDef ts) with
          | .ok db2 => createMainTables rest db2
          | .error e => .error e) = _
        by_cases hmem : sanitizeColumnName ts.name ∈ db.map Prod.fst
        · rw [createTableIfNotExists, if_pos hmem, if_pos hmem]
        · rw [createTableIfNotExists, if_neg hmem, if_neg hmem]
      rw [hstep]
      exact ih _
  · intro ts1 ts2 h
    have h1 : createTableIfNotExists [] (sanitizeColumnName ts1.name)
        (mainTableDef ts1) =
        .ok [(sanitizeColumnName ts1.name, mainTableDef ts1)] := by
      rw [createTableIfNotExists, if_neg (by simp)]
      rfl
    have h2 : createTableIfNotExists
        [(sanitizeColumnName ts1.name, mainTableDef ts1)]
        (sanitizeColumnName ts2.name) (mainTableDef ts2) =
        .ok [(sanitizeColumnName ts1.name, mainTableDef ts1)] := by
      rw [createTableIfNotExists, if_pos]
      rw [← h]
      exact List.mem_singleton.mpr rfl
    show (match createTableIfNotExists [] (sanitizeColumnName ts1.name)
        (mainTableDef ts1) with
      | .ok db2 => createMainTables [ts2] db2
      | .error e => .error e) = _
    rw [h1]
    show (match createTableIfNotExists
        [(sanitizeColumnName ts1.name, mainTableDef ts1)]
        (sanitizeColumnName ts2.name) (mainTableDef ts2) with
      | .ok db2 => createMainTables [] db2
      | .error e => .error e) = _
    rw [h2]
    rfl

/-- Witness for the amended C9 at the colliding pair `Alpha!`/`Alpha?`. -/
theorem claim_C9_amended_witness :
    createMainTables [tblColl1, tblColl2] [] =
      .ok [(sanitizeColumnName tblColl1.name, mainTableDef tblColl1)] :=
  claim_C9_amended.2.2 tblColl1 tblColl2 (by decide)

/-! ## Claim C10 — temporary database file cleanup
(src/server.js lines 149, 195-199, 559-569)

`tempDbFilePath` starts as the empty string and is assigned after
`fs.mkdtemp` succeeds (line 196); `new Database(tempDbFilePath)` then
creates the file (line 199). The `finally` block (lines 559-568) runs on
the success path and on every error path alike; when the path is non-empty
it awaits `fs.unlink`, whose own failure (e.g. ENOENT when the file was
never created) is caught and logged. The places the body can throw are
enumerated by `FailPoint`. -/

inductive FailPoint where
  | schemaFetch
  | mkdtempFail
  | dbOpen
  | dbWork
  | readFile
  | success
deriving Repr, DecidableEq

/-- Observable outcome of one handler invocation with respect to the
temporary file. -/
structure CleanupOutcome where
  pathAssigned : Bool
  unlinkAttempted : Bool
  unlinkThrewCaught : Bool
  fileExistsAfter : Bool
deriving Repr, DecidableEq

def runHandlerCleanup (fp : FailPoint) : CleanupOutcome :=
  let pathAssigned : Bool :=
    !(fp = FailPoint.schemaFetch || fp = FailPoint.mkdtempFail)
  let fileCreated : Bool := pathAssigned && !(fp = FailPoint.dbOpen)
  let unlinkAttempted : Bool := pathAssigned
  { pathAssigned := pathAssigned,
    unlinkAttempted := unlinkAttempted,
    unlinkThrewCaught := unlinkAttempted && !fileCreated,
    fileExistsAfter := fileCreated && !unlinkAttempted }

/-- C10: whenever the invocation reaches the point where the temporary
database file path is assigned, the `finally` block attempts the unlink and
the filesystem retains no copy of the artifact afterwards — on the success
path and on every error path alike. (The file also never survives when the
path was not assigned, since it was never created.) -/
theorem claim_C10 (fp : FailPoint)
    (h : (runHandlerCleanup fp).pathAssigned = true) :
    (runHandlerCleanup fp).unlinkAttempted = true ∧
    (runHandlerCleanup fp).fileExistsAfter = false := by
  cases fp with
  | schemaFetch => exact absurd h (by decide)
  | mkdtempFail => exact absurd h (by decide)
  | dbOpen => exact ⟨rfl, rfl⟩
  | dbWork => exact ⟨rfl, rfl⟩
  | readFile => exact ⟨rfl, rfl⟩
  | success => exact ⟨rfl, rfl⟩

/-- Witness for C10 on the success path. -/
theorem claim_C10_witness :
    (runHandlerCleanup FailPoint.success).unlinkAttempted = true ∧
    (runHandlerCleanup FailPoint.success).fileExistsAfter = false :=
  claim_C10 FailPoint.success (by decide)
